import Mathlib

/-!
# A verification model of the MiniDB relational engine

This file gives a shallow embedding, in Lean 4, of the core of the MiniDB
repository (`rdbms/table.py`, `rdbms/query_parser.py`, `rdbms/database.py`)
and proves properties of that embedding.

Conventions of the embedding:

* Python scalar values are modelled by the closed variant `Value`
  (int / float / str / bool).  `REAL` values are modelled as rationals;
  IEEE special values (nan/inf) are outside the model.
* Python `None` is modelled by `Option.none` wherever a value can be absent.
* Python `dict`s are modelled as association lists in insertion order,
  with lookup/update functions reproducing dict semantics (updating an
  existing key keeps its position, a fresh key is appended at the end).
* Python `==` on values (which identifies `1`, `1.0` and `True`) is
  modelled by `pyEq`; dictionaries keyed by values use `pyEq` as key
  equality, mirroring hash-based key identification.
* Methods that mutate an object and may raise are modelled by
  state-passing functions returning the post-state together with an
  `Option String` / `Except String` carrying the raised message, so that a
  raise occurring midway through a loop leaves the partial mutations
  visible in the returned state, exactly as in the Python objects.
-/

namespace MiniDB

/-- A Python scalar value as used by the engine: `int`, `float`
(modelled as a rational), `str`, or `bool`. -/
inductive Value where
  | vint (i : Int)
  | vreal (q : Rat)
  | vtext (s : String)
  | vbool (b : Bool)
deriving DecidableEq, Repr

namespace Value

/-- The numeric content of a value under Python's numeric tower
(`bool` counts as `0`/`1`); `none` for strings. -/
def toNum : Value → Option Rat
  | vint i => some (i : Rat)
  | vreal q => some q
  | vtext _ => none
  | vbool b => some (if b then 1 else 0)

/-- Python `==` on scalar values: numbers (including booleans) compare by
numeric value, strings compare as strings, a number never equals a string. -/
def pyEq (a b : Value) : Bool :=
  match toNum a, toNum b with
  | some x, some y => x = y
  | none, none =>
    match a, b with
    | vtext s, vtext t => s = t
    | _, _ => false
  | _, _ => false

end Value

open Value

/-- Python `==` lifted to possibly-absent values; `None == None` holds. -/
def pyEqOpt : Option Value → Option Value → Bool
  | none, none => true
  | some a, some b => pyEq a b
  | _, _ => false

/-! ## Association lists modelling Python dicts -/

/-- First value bound to a key, under key equality `eq`. -/
def alGet (eq : α → α → Bool) (l : List (α × β)) (k : α) : Option β :=
  match l with
  | [] => none
  | (a, b) :: rest => if eq a k then some b else alGet eq rest k

/-- `d[k] = v`: update an existing binding in place (keeping the stored
key object and its position), else append a new binding. -/
def alSet (eq : α → α → Bool) (l : List (α × β)) (k : α) (v : β) :
    List (α × β) :=
  match l with
  | [] => [(k, v)]
  | (a, b) :: rest =>
    if eq a k then (a, v) :: rest else (a, b) :: alSet eq rest k v

/-- `del d[k]`: drop the binding whose key matches `k`. -/
def alErase (eq : α → α → Bool) (l : List (α × β)) (k : α) : List (α × β) :=
  match l with
  | [] => []
  | (a, b) :: rest =>
    if eq a k then rest else (a, b) :: alErase eq rest k

/-- The keys of a dict, in insertion order. -/
def alKeys (l : List (α × β)) : List α := l.map (·.1)

/-- `k in d`. -/
def alHasKey (eq : α → α → Bool) (l : List (α × β)) (k : α) : Bool :=
  (alGet eq l k).isSome

/-- String keys compare by Python string equality, i.e. structurally. -/
def strEq (a b : String) : Bool := a = b

/-! ## Rows -/

/-- A row: a dict from column name to a possibly-`None` value.  A stored
`none` models a Python `None` stored under the key. -/
abbrev Row := List (String × Option Value)

/-- `row.get(c)`: `None` both when the key is absent and when it is bound
to `None`, exactly like `dict.get`. -/
def rowGet (r : Row) (c : String) : Option Value :=
  match alGet strEq r c with
  | none => none
  | some v => v

/-- `row.copy(); row.update(assignments)`. -/
def rowMerge (r : Row) (sv : List (String × Option Value)) : Row :=
  sv.foldl (fun acc p => alSet strEq acc p.1 p.2) r

/-! ## Python primitive conversions -/

/-- `str.upper()` (ASCII). -/
def pyUpper (s : String) : String := ⟨s.data.map Char.toUpper⟩

/-- `str.lower()` (ASCII). -/
def pyLower (s : String) : String := ⟨s.data.map Char.toLower⟩

/-- `s.startswith(p)`. -/
def strStartsWith (s p : String) : Bool := p.data.isPrefixOf s.data

/-- `s.endswith(p)`. -/
def strEndsWith (s p : String) : Bool := p.data.isSuffixOf s.data

/-- The whitespace characters of Python's `str.strip`/`str.split`/`\s`. -/
def pySpaceChar (c : Char) : Bool :=
  c = ' ' || c = '\t' || c = '\n' || c = '\r' || c = '\x0b' || c = '\x0c'

/-- `str.strip()`. -/
def pyStrip (s : String) : String :=
  ⟨(s.toList.dropWhile pySpaceChar).reverse.dropWhile pySpaceChar |>.reverse⟩

/-- `int(s)` on a string: optional sign and at least one digit
(surrounding whitespace allowed). -/
def strToInt (s : String) : Option Int :=
  let cs := (pyStrip s).toList
  let (neg, ds) :=
    match cs with
    | '-' :: rest => (true, rest)
    | '+' :: rest => (false, rest)
    | _ => (false, cs)
  if ds ≠ [] ∧ ds.all Char.isDigit then
    let n : Nat := ds.foldl (fun acc c => acc * 10 + (c.toNat - '0'.toNat)) 0
    some (if neg then -(n : Int) else (n : Int))
  else none

/-- Digits folded to a natural number. -/
def digitsToNat (ds : List Char) : Nat :=
  ds.foldl (fun acc c => acc * 10 + (c.toNat - '0'.toNat)) 0

/-- `float(s)` on a string, for finite decimal forms
`[sign] digits [. digits] [e sign digits]` (also `.5`, `5.`); the IEEE
special spellings are outside the rational model. -/
def strToFloat (s : String) : Option Rat :=
  let cs := (pyStrip s).toList
  let (neg, cs) :=
    match cs with
    | '-' :: rest => (true, rest)
    | '+' :: rest => (false, rest)
    | _ => (false, cs)
  let intPart := cs.takeWhile Char.isDigit
  let rest := cs.dropWhile Char.isDigit
  let (fracPart, rest) :=
    match rest with
    | '.' :: r => (r.takeWhile Char.isDigit, r.dropWhile Char.isDigit)
    | _ => ([], rest)
  let expo : Option Int :=
    match rest with
    | [] => some 0
    | e :: r =>
      if e = 'e' ∨ e = 'E' then
        let (eneg, r) :=
          match r with
          | '-' :: r' => (true, r')
          | '+' :: r' => (false, r')
          | _ => (false, r)
        if r ≠ [] ∧ r.all Char.isDigit then
          some (if eneg then -(digitsToNat r : Int) else (digitsToNat r : Int))
        else none
      else none
  match expo with
  | none => none
  | some e =>
    if intPart = [] ∧ fracPart = [] then none
    else
      let mant : Rat :=
        (digitsToNat intPart : Rat) +
          (digitsToNat fracPart : Rat) / ((10 : Rat) ^ fracPart.length)
      let scaled : Rat :=
        if e ≥ 0 then mant * (10 : Rat) ^ e.toNat else mant / (10 : Rat) ^ (-e).toNat
      some (if neg then -scaled else scaled)

/-- `int(q)` on a float: truncation toward zero. -/
def ratTrunc (q : Rat) : Int :=
  if q.num < 0 then -((q.num.natAbs / q.den : Nat) : Int)
  else ((q.num.natAbs / q.den : Nat) : Int)

/-- Decimal rendering of a float whose denominator divides a power of ten
(the floats the engine produces), mirroring `str()` on such floats. -/
def ratToDecimalString (q : Rat) : String :=
  let sign := if q.num < 0 then "-" else ""
  let n := q.num.natAbs
  let d := q.den
  let go : Nat → Nat → String → String := fun fuel r acc =>
    (Nat.rec (motive := fun _ => Nat → String → String)
      (fun _ acc => acc)
      (fun _ ih r acc =>
        if r = 0 then acc
        else ih (r * 10 % d) (acc ++ toString (r * 10 / d)))
      fuel) r acc
  let ip := n / d
  let r0 := n % d
  if r0 = 0 then sign ++ toString ip ++ ".0"
  else sign ++ toString ip ++ "." ++ go 400 r0 ""

/-- `str(value)`. -/
def pyStr : Value → String
  | vint i => toString i
  | vreal q => ratToDecimalString q
  | vtext s => s
  | vbool b => if b then "True" else "False"

/-- `int(value)` as used by INT coercion; `none` models `ValueError`. -/
def pyIntConv : Value → Option Int
  | vint i => some i
  | vbool b => some (if b then 1 else 0)
  | vreal q => some (ratTrunc q)
  | vtext s => strToInt s

/-- `float(value)` as used by REAL coercion; `none` models `ValueError`. -/
def pyFloatConv : Value → Option Rat
  | vint i => some (i : Rat)
  | vbool b => some (if b then 1 else 0)
  | vreal q => some q
  | vtext s => strToFloat s

/-! ## Columns (`table.py`, class `Column`) -/

/-- A column as stored after `Column.__init__`. -/
structure Column where
  name : String
  data_type : String
  primary_key : Bool
  unique : Bool
  nullable : Bool
deriving DecidableEq, Repr

/-- The supported data types. -/
def supportedTypes : List String := ["INT", "TEXT", "VARCHAR", "REAL", "BOOLEAN"]

/-- `Column.__init__`: uppercases the type, forces a primary-key column
non-nullable, and rejects unsupported types. -/
def Column.make (name data_type : String) (primary_key unique nullable : Bool) :
    Except String Column :=
  let dt := pyUpper data_type
  if supportedTypes.contains dt then
    Except.ok
      { name := name, data_type := dt, primary_key := primary_key,
        unique := unique, nullable := !primary_key && nullable }
  else Except.error s!"Unsupported data type: {data_type}"

/-- The wrapped conversion-failure message of `Column.validate_value`. -/
def invalidValueMsg (c : Column) (v : Value) : String :=
  s!"Invalid value '{pyStr v}' for column '{c.name}' of type {c.data_type}"

/-- `Column.validate_value`: `None` is rejected on non-nullable columns;
otherwise the value is coerced to the column type, any conversion failure
being rewrapped into a uniform message. -/
def Column.validate_value (c : Column) (v : Option Value) :
    Except String (Option Value) :=
  match v with
  | none =>
    if !c.nullable then Except.error s!"Column '{c.name}' cannot be NULL"
    else Except.ok none
  | some v =>
    match c.data_type with
    | "INT" =>
      match pyIntConv v with
      | some i => Except.ok (some (vint i))
      | none => Except.error (invalidValueMsg c v)
    | "TEXT" => Except.ok (some (vtext (pyStr v)))
    | "VARCHAR" => Except.ok (some (vtext (pyStr v)))
    | "REAL" =>
      match pyFloatConv v with
      | some q => Except.ok (some (vreal q))
      | none => Except.error (invalidValueMsg c v)
    | "BOOLEAN" =>
      match v with
      | vbool b => Except.ok (some (vbool b))
      | _ =>
        let s := pyLower (pyStr v)
        if s = "false" ∨ s = "0" ∨ s = "no" then Except.ok (some (vbool false))
        else if s = "true" ∨ s = "1" ∨ s = "yes" then Except.ok (some (vbool true))
        else Except.error (invalidValueMsg c v)
    | _ => Except.ok (some v)

/-- `Column.to_dict` keeps exactly the stored fields, so a serialized
column is represented by `Column` itself; `Column.from_dict` re-runs
`__init__` on those fields. -/
def Column.from_dict (c : Column) : Except String Column :=
  Column.make c.name c.data_type c.primary_key c.unique c.nullable

/-! ## Tables (`table.py`, class `Table`) -/

/-- A bucket map of one equality index: validated value → row positions. -/
abbrev Buckets := List (Value × List Nat)

/-- The index dict: unique-constrained column name → bucket map. -/
abbrev Idx := List (String × Buckets)

/-- A `WHERE` filter / `SET` assignment dict: column → literal (`none` is
the SQL `NULL` literal). -/
abbrev Filter := List (String × Option Value)

/-- Bucket lookup; keys are identified up to Python `==`. -/
def bGet (bs : Buckets) (v : Value) : Option (List Nat) :=
  match bs with
  | [] => none
  | (w, l) :: rest => if pyEq w v then some l else bGet rest v

/-- Append a row position to a value's bucket, creating the bucket if the
value is not yet a key (`_update_indexes` body). -/
def bApp (bs : Buckets) (v : Value) (i : Nat) : Buckets :=
  match bs with
  | [] => [(v, [i])]
  | (w, l) :: rest =>
    if pyEq w v then (w, l ++ [i]) :: rest else (w, l) :: bApp rest v i

/-- `list.remove(i)`: drop the first occurrence, raising when absent. -/
def pyListRemove (l : List Nat) (i : Nat) : Except String (List Nat) :=
  if l.contains i then Except.ok (l.erase i)
  else Except.error "list.remove(x): x not in list"

/-- `_remove_from_indexes` body for one bucket map: if `v` is a key,
remove position `i` from its bucket and drop the bucket once empty. -/
def bRemove (bs : Buckets) (v : Value) (i : Nat) : Except String Buckets :=
  match bs with
  | [] => Except.ok []
  | (w, l) :: rest =>
    if pyEq w v then
      (pyListRemove l i).map fun l' =>
        if l' = [] then rest else (w, l') :: rest
    else (bRemove rest v i).map ((w, l) :: ·)

/-- `Table._update_indexes(row, i)`: non-`None` values of the row are
appended to the matching buckets. -/
def updIdx (row : Row) (i : Nat) (idx : Idx) : Idx :=
  idx.map fun p =>
    match rowGet row p.1 with
    | none => p
    | some v => (p.1, bApp p.2 v i)

/-- `Table._remove_from_indexes(row, i)`: column dicts are processed in
order; a raise from `list.remove` stops the pass, keeping the mutations
already applied (post-state plus optional raised message). -/
def remIdx (row : Row) (i : Nat) : Idx → Idx × Option String
  | [] => ([], none)
  | (c, bs) :: rest =>
    match rowGet row c with
    | none =>
      let (rest', e) := remIdx row i rest
      ((c, bs) :: rest', e)
    | some v =>
      match bRemove bs v i with
      | Except.ok bs' =>
        let (rest', e) := remIdx row i rest
        ((c, bs') :: rest', e)
      | Except.error e => ((c, bs) :: rest, some e)

/-- Python `set.add` on the insertion-ordered list model of a set. -/
def setAdd (l : List String) (c : String) : List String :=
  if l.contains c then l else l ++ [c]

/-- `set(aList)` on the insertion-ordered list model of a set. -/
def pySetOfList (l : List String) : List String := l.foldl setAdd []

/-- A table as stored after `Table.__init__` and subsequent mutation. -/
structure Table where
  name : String
  columns : List (String × Column)
  column_order : List String
  rows : List Row
  indexes : Idx
  primary_key : Option String
  unique_columns : List String
deriving DecidableEq, Repr

/-- One step of `Table.__init__`'s primary-key/unique detection loop. -/
def mkUniqStep (pu : Option String × List String) (c : Column) :
    Except String (Option String × List String) := do
  let (pk, uniq) ←
    if c.primary_key then
      match pu.1 with
      | some _ => Except.error "Table can have only one primary key"
      | none => pure (some c.name, setAdd pu.2 c.name)
    else pure pu
  pure (pk, if c.unique then setAdd uniq c.name else uniq)

/-- `Table.__init__`: builds the name→column dict and the column order,
identifies the primary key (at most one) and the unique set, and creates
one empty index per unique-constrained column. -/
def Table.make (name : String) (cols : List Column) : Except String Table := do
  let columns := cols.foldl (fun d c => alSet strEq d c.name c) []
  let column_order := cols.map (·.name)
  let pu ← cols.foldlM mkUniqStep (none, [])
  let indexes : Idx := pu.2.map (fun c => (c, ([] : Buckets)))
  Except.ok
    { name := name, columns := columns, column_order := column_order,
      rows := [], indexes := indexes, primary_key := pu.1,
      unique_columns := pu.2 }

/-- The duplicate-key message of `_validate_row`. -/
def dupMsg (t : Table) (cname : String) (v : Value) : String :=
  s!"Duplicate value '{pyStr v}' for " ++
    (if t.primary_key = some cname then "primary key" else "unique")

/-- The per-column body of `_validate_row`'s loop: coerce the value, then
check the unique constraint against `indexes.get(column_name, {})`. -/
def colCheck (t : Table) (row : Row) (cname : String) (col : Column) :
    Except String (Option Value) := do
  let vv ← col.validate_value (rowGet row cname)
  match vv with
  | some v =>
    if t.unique_columns.contains cname then
      match alGet strEq t.indexes cname with
      | some bs =>
        if (bGet bs v).isSome then Except.error (dupMsg t cname v)
        else pure vv
      | none => pure vv
    else pure vv
  | none => pure vv

/-- `Table._validate_row`: rejects unknown keys, then runs the per-column
check over the column dict in order, accumulating the validated row. -/
def Table.validate_row (t : Table) (row : Row) : Except String Row :=
  match row.find? (fun p => !(alHasKey strEq t.columns p.1)) with
  | some p => Except.error s!"Unknown column: {p.1}"
  | none =>
    t.columns.foldlM
      (fun (vr : Row) p =>
        (colCheck t row p.1 p.2).map (fun vv => alSet strEq vr p.1 vv))
      []

/-- `Table.insert`: validates, then appends the row and indexes it; the
post-state together with the raised message, if any. -/
def Table.insertS (t : Table) (row : Row) : Table × Option String :=
  match t.validate_row row with
  | Except.error e => (t, some e)
  | Except.ok vr =>
    ({ t with rows := t.rows ++ [vr],
              indexes := updIdx vr t.rows.length t.indexes }, none)

/-- Recursion of `Table._matches_where_clause` over the filter items. -/
def matchesGo (t : Table) (row : Row) : List (String × Option Value) →
    Except String Bool
  | [] => Except.ok true
  | (c, ev) :: rest =>
    if !(alHasKey strEq t.columns c) then
      Except.error s!"Unknown column in WHERE clause {c}"
    else if pyEqOpt (rowGet row c) ev then matchesGo t row rest
    else Except.ok false

/-- `Table._matches_where_clause`. -/
def Table.matchesB (t : Table) (row : Row) (w : Option Filter) :
    Except String Bool :=
  match w with
  | none => Except.ok true
  | some conds => matchesGo t row conds

/-- The projection dict of `Table.select`. -/
def projectRow (row : Row) (cols : List String) : Row :=
  cols.foldl (fun r c => alSet strEq r c (rowGet row c)) []

/-- `Table.select`. -/
def Table.selectT (t : Table) (columns : Option (List String))
    (w : Option Filter) : Except String (List Row) := do
  let cols := match columns with | none => t.column_order | some cs => cs
  match cols.find? (fun c => !(alHasKey strEq t.columns c) && c ≠ "*") with
  | some c => Except.error s!"Unknown column: {c}"
  | none =>
    let cols := if cols = ["*"] then t.column_order else cols
    t.rows.foldlM
      (fun acc row => do
        let m ← t.matchesB row w
        pure (if m then acc ++ [projectRow row cols] else acc))
      []

/-- The loop of `Table.update` over row positions (`fuel` counts the
remaining iterations; the row list's length never changes inside the
loop).  A raise leaves the mutations already applied in the returned
state. -/
def updateGo (sv : Filter) (w : Option Filter) :
    Nat → Table → Nat → Nat → Table × Except String Nat
  | 0, t, _, cnt => (t, Except.ok cnt)
  | fuel + 1, t, i, cnt =>
    match t.rows.get? i with
    | none => (t, Except.ok cnt)
    | some row =>
      match t.matchesB row w with
      | Except.error e => (t, Except.error e)
      | Except.ok false => updateGo sv w fuel t (i + 1) cnt
      | Except.ok true =>
        let rem := remIdx row i t.indexes
        let t1 := { t with indexes := rem.1 }
        match rem.2 with
        | some e => (t1, Except.error e)
        | none =>
          match t1.validate_row (rowMerge row sv) with
          | Except.error e => (t1, Except.error e)
          | Except.ok vr =>
            let t2 := { t1 with rows := t1.rows.set i vr }
            updateGo sv w fuel { t2 with indexes := updIdx vr i t2.indexes }
              (i + 1) (cnt + 1)

/-- `Table.update`. -/
def Table.updateS (t : Table) (sv : Filter) (w : Option Filter) :
    Table × Except String Nat :=
  updateGo sv w t.rows.length t 0 0

/-- `Table._rebuild_indexes`: reset every index to empty, then re-add all
rows position by position. -/
def Table.rebuild_indexes (t : Table) : Table :=
  let base : Idx := t.indexes.map (fun p => (p.1, ([] : Buckets)))
  { t with indexes := t.rows.enum.foldl (fun idx p => updIdx p.2 p.1 idx) base }

/-- The removal pass of `Table.delete` over the collected positions in
reverse order: un-index the row at `i`, then `del rows[i]`. -/
def delRemovePass : Table → List Nat → Table × Option String
  | t, [] => (t, none)
  | t, i :: rest =>
    match t.rows.get? i with
    | none => (t, some "list index out of range")
    | some row =>
      let rem := remIdx row i t.indexes
      let t1 := { t with indexes := rem.1 }
      match rem.2 with
      | some e => (t1, some e)
      | none => delRemovePass { t1 with rows := t1.rows.eraseIdx i } rest

/-- `Table.delete`: collect the matching positions, remove them from last
to first, then rebuild every index. -/
def Table.deleteS (t : Table) (w : Option Filter) : Table × Except String Nat :=
  match t.rows.enum.foldlM
      (fun (acc : List Nat) p => do
        let m ← t.matchesB p.2 w
        pure (if m then acc ++ [p.1] else acc))
      [] with
  | Except.error e => (t, Except.error e)
  | Except.ok idxs =>
    match delRemovePass t idxs.reverse with
    | (t1, some e) => (t1, Except.error e)
    | (t1, none) => (t1.rebuild_indexes, Except.ok idxs.length)

/-- `Table.get_row_count`. -/
def Table.get_row_count (t : Table) : Nat := t.rows.length

/-- The serialized form produced by `Table.to_dict` (indexes are never
serialized). -/
structure TableDict where
  name : String
  columns : List Column
  column_order : List String
  rows : List Row
  primary_key : Option String
  unique_columns : List String
deriving DecidableEq, Repr

/-- `Table.to_dict`: the column dict's values in order, the column order,
the rows, the primary key, and the unique set as a list. -/
def Table.to_dict (t : Table) : TableDict :=
  { name := t.name, columns := t.columns.map (·.2),
    column_order := t.column_order, rows := t.rows,
    primary_key := t.primary_key, unique_columns := t.unique_columns }

/-- `Table.from_dict`: rebuild the columns and the table object, then
overwrite rows, column order, primary key and unique set from the dict,
and rebuild the indexes rather than trusting any persisted index state. -/
def Table.from_dict (d : TableDict) : Except String Table := do
  let cols ← d.columns.mapM Column.from_dict
  let t ← Table.make d.name cols
  Except.ok
    ({ t with rows := d.rows, column_order := d.column_order,
              primary_key := d.primary_key,
              unique_columns := pySetOfList d.unique_columns }).rebuild_indexes

/-! ## Parsed queries and results (`query_parser.py`, dataclasses) -/

/-- A parsed `CREATE TABLE` column definition (the dict built by
`_parse_column_definition`). -/
structure ColDef where
  name : String
  type : String
  primary_key : Bool
  unique : Bool
  nullable : Bool
deriving DecidableEq, Repr

/-- The dynamically-typed `columns` field of `ParsedQuery`: a list of
column names (SELECT/INSERT) or of column definitions (CREATE TABLE). -/
inductive ColsField where
  | names (l : List String)
  | defs (l : List ColDef)
deriving DecidableEq, Repr

/-- One parsed INSERT row: either a dict of named values, or the value
tuple of a column-less INSERT (marked `__values_only__` in the source). -/
inductive InsertRow where
  | named (r : Row)
  | valuesOnly (vs : List (Option Value))
deriving DecidableEq, Repr

/-- A parsed `JOIN ... ON` condition: the empty dict produced when the
condition text does not match `t1.c = t2.c`, or the four captured names. -/
inductive JoinCond where
  | emptyDict
  | onCond (left_table left_column right_table right_column : String)
deriving DecidableEq, Repr

/-- `ParsedQuery`. -/
structure ParsedQuery where
  query_type : String
  table_name : Option String := none
  columns : Option ColsField := none
  values : Option (List InsertRow) := none
  where_clause : Option Filter := none
  set_values : Option Filter := none
  join_table : Option String := none
  join_condition : Option JoinCond := none
  order_by : Option (List String) := none
  limit : Option Nat := none
deriving DecidableEq, Repr

/-- `QueryResult`. -/
structure QueryResult where
  success : Bool
  data : Option (List Row) := none
  columns : Option (List String) := none
  rows_affected : Nat := 0
  message : Option String := none
  error : Option String := none
deriving DecidableEq, Repr

/-! ## The database orchestrator (`database.py`, class `Database`)

The storage backend is abstracted by a boolean-returning save function
(`StorageEngine.save_table` returns `False` exactly when the file write
fails); nothing else about the backend is observable to the executors
modelled here. -/

/-- A live database: the name→table map and the backend's save outcome. -/
structure Database where
  tables : List (String × Table)
  save_table : String → TableDict → Bool

/-- `Database._save_table_to_storage`. -/
def Database.save_to_storage (db : Database) (table_name : String) : Bool :=
  match alGet strEq db.tables table_name with
  | some t => db.save_table table_name t.to_dict
  | none => false

/-- `Database._execute_create_table`. -/
def Database.execute_create_table (db : Database) (pq : ParsedQuery) :
    Database × QueryResult :=
  let table_name := pq.table_name.getD ""
  if alHasKey strEq db.tables table_name then
    (db, { success := false, error := some s!"Table '{table_name}' already exists" })
  else
    let defs := match pq.columns with
      | some (ColsField.defs l) => Except.ok l
      | some (ColsField.names _) => Except.error "'str' object is not subscriptable"
      | none => Except.error "'NoneType' object is not iterable"
    match defs.bind (fun l => l.mapM (fun d =>
        Column.make d.name d.type d.primary_key d.unique d.nullable)) with
    | Except.error e =>
      (db, { success := false, error := some s!"Error creating table: {e}" })
    | Except.ok cols =>
      match Table.make table_name cols with
      | Except.error e =>
        (db, { success := false, error := some s!"Error creating table: {e}" })
      | Except.ok table =>
        let db := { db with tables := alSet strEq db.tables table_name table }
        if db.save_to_storage table_name then
          (db, { success := true,
                 message := some s!"Table '{table_name}' created successfully" })
        else
          (db, { success := false,
                 error := some s!"Failed to save table '{table_name}' to storage" })

/-- The INSERT loop of `_execute_insert` over the parsed rows; a raise
leaves the rows already inserted in the table. -/
def insertRowsGo (t : Table) (cnt : Nat) :
    List InsertRow → Table × Nat × Option String
  | [] => (t, cnt, none)
  | r :: rest =>
    let row : Row :=
      match r with
      | InsertRow.named row => row
      | InsertRow.valuesOnly vs =>
        (t.column_order.zip vs).foldl (fun acc p => alSet strEq acc p.1 p.2) []
    match t.insertS row with
    | (t', none) => insertRowsGo t' (cnt + 1) rest
    | (t', some e) => (t', cnt, some e)

/-- `Database._execute_insert`. -/
def Database.execute_insert (db : Database) (pq : ParsedQuery) :
    Database × QueryResult :=
  let table_name := pq.table_name.getD ""
  match alGet strEq db.tables table_name with
  | none =>
    (db, { success := false, error := some s!"Table '{table_name}' does not exist" })
  | some t =>
    let go := insertRowsGo t 0 (pq.values.getD [])
    let db := { db with tables := alSet strEq db.tables table_name go.1 }
    match go.2.2 with
    | some e => (db, { success := false, error := some s!"Insert failed: {e}" })
    | none =>
      let _ := db.save_to_storage table_name
      (db, { success := true, rows_affected := go.2.1,
             message := some s!"Inserted {go.2.1} row(s) into '{table_name}'" })

/-- `Database._evaluate_join_condition`. -/
def evalJoinCondition (left_row right_row : Row) (c : Option JoinCond) : Bool :=
  match c with
  | none => true
  | some JoinCond.emptyDict => true
  | some (JoinCond.onCond _ lc _ rc) =>
    if lc ≠ "" ∧ rc ≠ "" then pyEqOpt (rowGet left_row lc) (rowGet right_row rc)
    else true

/-- The combined row of a surviving join pair: every source column under
the key `tableName.columnName`. -/
def combineJoinRow (lname : String) (l : Row) (rname : String) (r : Row) : Row :=
  let pre := l.foldl (fun acc p => alSet strEq acc (lname ++ "." ++ p.1) p.2) []
  r.foldl (fun acc p => alSet strEq acc (rname ++ "." ++ p.1) p.2) pre

/-- `Database._evaluate_where_clause_on_joined_row` for one condition:
exact key match first, else the first combined key whose suffix after a
dot is the filter's key; an unresolvable key fails the row. -/
def joinedRowCondHolds (row : Row) (c : String) (ev : Option Value) : Bool :=
  match alGet strEq row c with
  | some v => pyEqOpt v ev
  | none =>
    match row.find? (fun p => strEndsWith p.1 ("." ++ c)) with
    | some p => pyEqOpt p.2 ev
    | none => false

/-- `Database._evaluate_where_clause_on_joined_row`. -/
def joinedRowMatches (row : Row) (w : Filter) : Bool :=
  w.all (fun p => joinedRowCondHolds row p.1 p.2)

/-- The qualified-or-suffix projection of `_execute_join_select`; an
unresolvable column projects as `None`. -/
def projectJoinedRow (row : Row) (cols : List String) : Row :=
  cols.foldl
    (fun acc c =>
      match alGet strEq row c with
      | some v => alSet strEq acc c v
      | none =>
        match row.find? (fun p => strEndsWith p.1 ("." ++ c)) with
        | some p => alSet strEq acc c p.2
        | none => alSet strEq acc c none)
    []

/-- `Database._execute_join_select`. -/
def Database.execute_join_select (db : Database) (pq : ParsedQuery) :
    Database × QueryResult :=
  let left_name := pq.table_name.getD ""
  let right_name := pq.join_table.getD ""
  match alGet strEq db.tables left_name with
  | none =>
    (db, { success := false, error := some s!"Table '{left_name}' does not exist" })
  | some left_table =>
    match alGet strEq db.tables right_name with
    | none =>
      (db, { success := false, error := some s!"Table '{right_name}' does not exist" })
    | some right_table =>
      match left_table.selectT none none, right_table.selectT none none with
      | Except.error e, _ =>
        (db, { success := false, error := some s!"Join query failed: {e}" })
      | _, Except.error e =>
        (db, { success := false, error := some s!"Join query failed: {e}" })
      | Except.ok left_rows, Except.ok right_rows =>
        let join_results :=
          left_rows.foldl
            (fun acc l =>
              right_rows.foldl
                (fun acc r =>
                  if evalJoinCondition l r pq.join_condition then
                    acc ++ [combineJoinRow left_name l right_name r]
                  else acc)
                acc)
            []
        let join_results :=
          match pq.where_clause with
          | some w => join_results.filter (fun row => joinedRowMatches row w)
          | none => join_results
        let join_results :=
          match pq.columns with
          | some (ColsField.names cols) =>
            if cols ≠ ["*"] then join_results.map (fun row => projectJoinedRow row cols)
            else join_results
          | _ => join_results
        (db, { success := true, data := some join_results,
               columns := some (match join_results with
                 | [] => []
                 | row :: _ => alKeys row),
               rows_affected := join_results.length })

/-- `Database._execute_select`. -/
def Database.execute_select (db : Database) (pq : ParsedQuery) :
    Database × QueryResult :=
  let table_name := pq.table_name.getD ""
  match alGet strEq db.tables table_name with
  | none =>
    (db, { success := false, error := some s!"Table '{table_name}' does not exist" })
  | some t =>
    if pq.join_table.isSome then db.execute_join_select pq
    else
      let cols : Except String (Option (List String)) :=
        match pq.columns with
        | none => Except.ok none
        | some (ColsField.names l) => Except.ok (some l)
        | some (ColsField.defs _) => Except.error "unhashable type: 'dict'"
      match cols.bind (fun cs => (t.selectT cs pq.where_clause).map (cs, ·)) with
      | Except.error e =>
        (db, { success := false, error := some s!"Select failed: {e}" })
      | Except.ok (cs, results) =>
        (db, { success := true, data := some results,
               columns := some (match cs with
                 | some l => if l ≠ [] then l else t.column_order
                 | none => t.column_order),
               rows_affected := results.length })

/-- `Database._execute_update`. -/
def Database.execute_update (db : Database) (pq : ParsedQuery) :
    Database × QueryResult :=
  let table_name := pq.table_name.getD ""
  match alGet strEq db.tables table_name with
  | none =>
    (db, { success := false, error := some s!"Table '{table_name}' does not exist" })
  | some t =>
    let upd := t.updateS (pq.set_values.getD []) pq.where_clause
    let db := { db with tables := alSet strEq db.tables table_name upd.1 }
    match upd.2 with
    | Except.error e =>
      (db, { success := false, error := some s!"Update failed: {e}" })
    | Except.ok n =>
      let _ := db.save_to_storage table_name
      (db, { success := true, rows_affected := n,
             message := some s!"Updated {n} row(s) in '{table_name}'" })

/-- `Database._execute_delete`. -/
def Database.execute_delete (db : Database) (pq : ParsedQuery) :
    Database × QueryResult :=
  let table_name := pq.table_name.getD ""
  match alGet strEq db.tables table_name with
  | none =>
    (db, { success := false, error := some s!"Table '{table_name}' does not exist" })
  | some t =>
    let del := t.deleteS pq.where_clause
    let db := { db with tables := alSet strEq db.tables table_name del.1 }
    match del.2 with
    | Except.error e =>
      (db, { success := false, error := some s!"Delete failed: {e}" })
    | Except.ok n =>
      let _ := db.save_to_storage table_name
      (db, { success := true, rows_affected := n,
             message := some s!"Deleted {n} row(s) from '{table_name}'" })

/-- `Database._execute_drop_table` (the backend's own delete result is
ignored by the source). -/
def Database.execute_drop_table (db : Database) (pq : ParsedQuery) :
    Database × QueryResult :=
  let table_name := pq.table_name.getD ""
  if alHasKey strEq db.tables table_name then
    ({ db with tables := alErase strEq db.tables table_name },
     { success := true, message := some s!"Table '{table_name}' dropped successfully" })
  else
    (db, { success := false, error := some s!"Table '{table_name}' does not exist" })

/-- `Database._execute_show_tables`: one row per live table with its name
and current row count. -/
def Database.execute_show_tables (db : Database) : Database × QueryResult :=
  let tables_info : List Row :=
    db.tables.map (fun p =>
      [("table_name", some (vtext p.1)),
       ("row_count", some (vint (p.2.get_row_count : Int)))])
  (db, { success := true, data := some tables_info,
         columns := some ["table_name", "row_count"],
         rows_affected := tables_info.length })

/-- `Database._execute_describe`. -/
def Database.execute_describe (db : Database) (pq : ParsedQuery) :
    Database × QueryResult :=
  let table_name := pq.table_name.getD ""
  match alGet strEq db.tables table_name with
  | none =>
    (db, { success := false, error := some s!"Table '{table_name}' does not exist" })
  | some t =>
    -- `table.columns[col_name]` raises a KeyError on an inconsistent
    -- table; the raise reaches the outer handler of `execute_query`.
    let schema_info : Except String (List Row) :=
      t.column_order.mapM (fun cname =>
        match alGet strEq t.columns cname with
        | none => Except.error s!"'{cname}'"
        | some c => Except.ok
          [("column_name", some (vtext c.name)),
           ("data_type", some (vtext c.data_type)),
           ("nullable", some (vtext (if c.nullable then "YES" else "NO"))),
           ("key", some (vtext (if c.primary_key then "PRI"
              else if c.unique then "UNI" else ""))),
           ("default", none)])
    match schema_info with
    | Except.error e => (db, { success := false, error := some e })
    | Except.ok schema_info =>
      (db, { success := true, data := some schema_info,
             columns := some ["column_name", "data_type", "nullable", "key", "default"],
             rows_affected := schema_info.length })

/-! ## The query parser (`query_parser.py`, class `QueryParser`)

Each `re` pattern of the source is reproduced by a bespoke scanner with
the same matching semantics (leftmost match, greedy/lazy groups as in the
pattern, `IGNORECASE` where the source sets it). -/

/-- `\w` (ASCII). -/
def isWordChar (c : Char) : Bool := c.isAlphanum || c = '_'

/-- Case-insensitive character comparison (ASCII). -/
def chEqCi (a b : Char) : Bool := a.toLower = b.toLower

/-- Case-insensitive prefix test. -/
def startsWithCi : List Char → List Char → Bool
  | [], _ => true
  | _ :: _, [] => false
  | p :: ps, c :: cs => chEqCi p c && startsWithCi ps cs

/-- Leftmost position whose suffix a matcher accepts (`re.search`). -/
def scanFirst (f : List Char → Option α) : List Char → Option α
  | [] => f []
  | c :: t =>
    match f (c :: t) with
    | some a => some a
    | none => scanFirst f t

/-- Smallest split point `k ≥ 1` whose suffix satisfies `P`: the lazy
group `(.+?)` followed by a terminator look. -/
def lazyScan (P : List Char → Bool) : List Char → Nat → Option Nat
  | [], k => if P [] then some k else none
  | c :: t, k => if P (c :: t) then some k else lazyScan P t (k + 1)

/-- Exact (case-sensitive) substring test. -/
def hasSubstr (pat : List Char) : List Char → Bool
  | [] => pat.isPrefixOf []
  | c :: t => pat.isPrefixOf (c :: t) || hasSubstr pat t

/-- The maximal `\w+` prefix and the remainder. -/
def takeWord (cs : List Char) : List Char × List Char :=
  (cs.takeWhile isWordChar, cs.dropWhile isWordChar)

/-- Length of the leading whitespace run. -/
def wsRun (cs : List Char) : Nat := (cs.takeWhile pySpaceChar).length

/-- Index of the last occurrence of a character. -/
def lastIdxOf (c : Char) (cs : List Char) : Option Nat :=
  match cs.reverse.findIdx? (· = c) with
  | none => none
  | some k => some (cs.length - 1 - k)

/-- `str.split()` (whitespace runs, empties dropped). -/
def splitWs (cs : List Char) : List (List Char) :=
  let r := cs.foldl
    (fun (acc : List (List Char) × List Char) c =>
      if pySpaceChar c then
        (if acc.2 = [] then acc else (acc.1 ++ [acc.2], []))
      else (acc.1, acc.2 ++ [c]))
    ([], [])
  if r.2 = [] then r.1 else r.1 ++ [r.2]

/-- `str.split(sep)` (empties kept). -/
def splitOnChar (sep : Char) (cs : List Char) : List (List Char) :=
  let r := cs.foldl
    (fun (acc : List (List Char) × List Char) c =>
      if c = sep then (acc.1 ++ [acc.2], []) else (acc.1, acc.2 ++ [c]))
    ([], [])
  r.1 ++ [r.2]

/-- `" ".join(query.split())`: whitespace normalization of `parse`. -/
def normSpace (s : String) : String :=
  String.intercalate " " ((splitWs s.toList).map (fun l => ⟨l⟩))

/-- `QueryParser._parse_value`: NULL, quoted string, boolean, number,
else a bare string. -/
def parseValue (s : String) : Option Value :=
  let v := pyStrip s
  let cs := v.toList
  if pyUpper v = "NULL" then none
  else if cs ≠ [] ∧
      ((cs.head? = some '\'' ∧ cs.getLast? = some '\'') ∨
       (cs.head? = some '"' ∧ cs.getLast? = some '"')) then
    some (vtext ⟨(cs.drop 1).dropLast⟩)
  else if pyUpper v = "TRUE" ∨ pyUpper v = "FALSE" then
    some (vbool (pyUpper v = "TRUE"))
  else if cs.contains '.' then
    match strToFloat v with
    | some q => some (vreal q)
    | none => some (vtext v)
  else
    match strToInt v with
    | some i => some (vint i)
    | none => some (vtext v)

/-- The anchored match `(\w+)\s*=\s*(.+)` of `_parse_update`'s SET items:
the captured column name and the raw second group. -/
def eqMatchSet (part : List Char) : Option (String × String) :=
  let (w1, r1) := takeWord part
  if w1 = [] then none
  else
    match r1.dropWhile pySpaceChar with
    | '=' :: r2 => if r2 = [] then none else some (⟨w1⟩, ⟨r2⟩)
    | _ => none

/-- The anchored match `(\w+(?:\.\w+)?)\s*=\s*(.+)` of
`_parse_where_clause`, with the regex's backtracking order (the optional
dotted part is tried first). -/
def eqMatchWhere (part : List Char) : Option (String × String) :=
  let (w1, r1) := takeWord part
  if w1 = [] then none
  else
    let tryFrom := fun (colName r : List Char) =>
      match r.dropWhile pySpaceChar with
      | '=' :: r2 =>
        if r2 = [] then none else some ((⟨colName⟩ : String), (⟨r2⟩ : String))
      | _ => none
    match r1 with
    | '.' :: r2 =>
      let (w2, r3) := takeWord r2
      if w2 ≠ [] then
        match tryFrom (w1 ++ '.' :: w2) r3 with
        | some res => some res
        | none => tryFrom w1 r1
      else tryFrom w1 r1
    | _ => tryFrom w1 r1

/-- The separator `\s+AND\s+` of `re.split`, applied left to right with
greedy whitespace runs (`fuel` bounds the recursion by the text length). -/
def splitAndGo (fuel : Nat) (cur : List Char) (acc : List (List Char)) :
    List Char → List (List Char)
  | [] => acc ++ [cur]
  | c :: t =>
    match fuel with
    | 0 => acc ++ [cur ++ c :: t]
    | fuel + 1 =>
      if pySpaceChar c then
        let after1 := (c :: t).dropWhile pySpaceChar
        if startsWithCi "AND".toList after1 ∧ wsRun (after1.drop 3) ≥ 1 then
          splitAndGo fuel [] (acc ++ [cur]) ((after1.drop 3).dropWhile pySpaceChar)
        else splitAndGo fuel (cur ++ [c]) acc t
      else splitAndGo fuel (cur ++ [c]) acc t

/-- `re.split(r"\s+AND\s+", s, flags=re.IGNORECASE)`. -/
def splitAnd (cs : List Char) : List (List Char) :=
  splitAndGo (cs.length + 1) [] [] cs

/-- The terminator look of the WHERE extraction pattern:
`\s+ORDER\s+BY|\s+LIMIT|\s+GROUP\s+BY|$`. -/
def whereTerminator (s : List Char) : Bool :=
  if s = [] then true
  else
    let n := wsRun s
    if n = 0 then false
    else
      let s' := s.drop n
      (startsWithCi "ORDER".toList s' ∧ wsRun (s'.drop 5) ≥ 1 ∧
        startsWithCi "BY".toList ((s'.drop 5).dropWhile pySpaceChar)) ∨
      startsWithCi "LIMIT".toList s' ∨
      (startsWithCi "GROUP".toList s' ∧ wsRun (s'.drop 5) ≥ 1 ∧
        startsWithCi "BY".toList ((s'.drop 5).dropWhile pySpaceChar))

/-- `QueryParser._parse_where_clause`: extract the text after `WHERE ` up
to the lazy terminator, split it on AND, and keep only the items matching
`column = literal`; `none` when nothing matches. -/
def parseWhereClause (nq : String) : Option Filter :=
  let extract : List Char → Option (List Char) := fun s =>
    if startsWithCi "WHERE ".toList s then
      let rest := s.drop 6
      match rest with
      | [] => none
      | c :: t =>
        match lazyScan whereTerminator t 1 with
        | some k => some ((c :: t).take k)
        | none => none
    else none
  match scanFirst extract nq.toList with
  | none => none
  | some whereStr =>
    let parts := splitAnd (pyStrip ⟨whereStr⟩).toList
    let conditions : Filter :=
      parts.foldl
        (fun acc part =>
          match eqMatchWhere (pyStrip ⟨part⟩).toList with
          | some (col, vs) => alSet strEq acc col (parseValue (pyStrip vs))
          | none => acc)
        []
    if conditions = [] then none else some conditions

/-- The data-type alias map of `QueryParser.__init__`. -/
def dataTypesMap : List (String × String) :=
  [("INTEGER", "INT"), ("INT", "INT"), ("TEXT", "TEXT"),
   ("VARCHAR", "VARCHAR"), ("STRING", "TEXT"), ("REAL", "REAL"),
   ("FLOAT", "REAL"), ("DOUBLE", "REAL"), ("BOOLEAN", "BOOLEAN"),
   ("BOOL", "BOOLEAN")]

/-- `QueryParser._split_column_definitions`: split on commas at
parenthesis depth zero, stripping each piece. -/
def splitColumnDefs (cs : List Char) : List String :=
  let r := cs.foldl
    (fun (acc : List String × List Char × Int) c =>
      let (done, cur, depth) := acc
      if c = '(' then (done, cur ++ [c], depth + 1)
      else if c = ')' then (done, cur ++ [c], depth - 1)
      else if c = ',' ∧ depth = 0 then (done ++ [pyStrip ⟨cur⟩], [], depth)
      else (done, cur ++ [c], depth))
    ([], [], 0)
  if pyStrip ⟨r.2.1⟩ ≠ "" then r.1 ++ [pyStrip ⟨r.2.1⟩] else r.1

/-- `QueryParser._parse_column_definition`. -/
def parseColumnDefinition (cd : String) : Except String ColDef :=
  let parts := (splitWs cd.toList).map (fun l => (⟨l⟩ : String))
  match parts with
  | name :: dtypeRaw :: constraints =>
    let dtype := pyUpper dtypeRaw
    match alGet strEq dataTypesMap dtype with
    | none => Except.error s!"Unsupported data type: {dtype}"
    | some mapped =>
      let cstr := pyUpper (String.intercalate " " constraints)
      let pk := hasSubstr "PRIMARY KEY".toList cstr.toList
      Except.ok
        { name := name, type := mapped, primary_key := pk,
          unique := hasSubstr "UNIQUE".toList cstr.toList,
          nullable := !pk && !hasSubstr "NOT NULL".toList cstr.toList }
  | _ => Except.error s!"Invalid column definition: {cd}"

/-- `QueryParser._parse_create_table`: the anchored pattern
`CREATE TABLE (\w+) \((.+)\)` (greedy body up to the last parenthesis). -/
def parseCreateTable (nq : String) : Except String ParsedQuery := do
  let cs := nq.toList
  let fail : Except String ParsedQuery := Except.error "Invalid CREATE TABLE syntax"
  if startsWithCi "CREATE TABLE ".toList cs then
    let (w, r1) := takeWord (cs.drop 13)
    if w ≠ [] ∧ " (".toList.isPrefixOf r1 then
      let body := r1.drop 2
      match lastIdxOf ')' body with
      | some j =>
        if 1 ≤ j then
          let defs ← (splitColumnDefs (body.take j)).mapM
            (fun cd => parseColumnDefinition (pyStrip cd))
          Except.ok
            { query_type := "CREATE_TABLE", table_name := some ⟨w⟩,
              columns := some (ColsField.defs defs) }
        else fail
      | none => fail
    else fail
  else fail

/-- The tuple scanner `re.findall(r"\(([^)]+)\)", s)`, each tuple split
on commas and parsed as values (`_parse_values_list`). -/
def parseValuesList (fuel : Nat) : List Char → List (List (Option Value))
  | [] => []
  | c :: rest =>
    match fuel with
    | 0 => []
    | fuel + 1 =>
      if c = '(' then
        let content := rest.takeWhile (· ≠ ')')
        match rest.dropWhile (· ≠ ')'), content with
        | ')' :: tail, _ :: _ =>
          ((splitOnChar ',' content).map
            (fun v => parseValue (pyStrip ⟨v⟩))) :: parseValuesList fuel tail
        | _, _ => parseValuesList fuel rest
      else parseValuesList fuel rest

/-- The column-list search of `_parse_insert`:
`INSERT INTO \w+ \(([^)]+)\) VALUES`. -/
def insertColumnsAt (s : List Char) : Option (List String) :=
  if startsWithCi "INSERT INTO ".toList s then
    let (w, r1) := takeWord (s.drop 12)
    if w ≠ [] ∧ " (".toList.isPrefixOf r1 then
      let content := (r1.drop 2).takeWhile (· ≠ ')')
      if content ≠ [] ∧
          startsWithCi ") VALUES".toList ((r1.drop 2).dropWhile (· ≠ ')')) then
        some ((splitOnChar ',' content).map (fun c => pyStrip ⟨c⟩))
      else none
    else none
  else none

/-- The `VALUES (.+)` search of `_parse_insert`. -/
def valuesTailAt (s : List Char) : Option (List Char) :=
  if startsWithCi "VALUES ".toList s ∧ s.drop 7 ≠ [] then some (s.drop 7)
  else none

/-- `QueryParser._parse_insert`. -/
def parseInsert (nq : String) : Except String ParsedQuery := do
  let cs := nq.toList
  let table_name ←
    if startsWithCi "INSERT INTO ".toList cs ∧ (takeWord (cs.drop 12)).1 ≠ [] then
      Except.ok (⟨(takeWord (cs.drop 12)).1⟩ : String)
    else Except.error "Invalid INSERT syntax"
  let columns := scanFirst insertColumnsAt cs
  match scanFirst valuesTailAt cs with
  | none => Except.error "INSERT statement must include VALUES"
  | some valuesStr =>
    let values_list := parseValuesList (valuesStr.length + 1) valuesStr
    let rows ← values_list.mapM (fun tup =>
      match columns with
      | some cols =>
        if tup.length ≠ cols.length then
          Except.error "Number of values doesn't match number of columns"
        else
          Except.ok (InsertRow.named
            ((cols.zip tup).foldl (fun r p => alSet strEq r p.1 p.2) []))
      | none => Except.ok (InsertRow.valuesOnly tup))
    Except.ok
      { query_type := "INSERT", table_name := some table_name,
        columns := columns.map ColsField.names, values := some rows }

/-- The character class `[^WHERE\s]` (case-insensitive). -/
def joinCharOk (c : Char) : Bool :=
  !pySpaceChar c && c.toUpper ≠ 'W' && c.toUpper ≠ 'H' &&
    c.toUpper ≠ 'E' && c.toUpper ≠ 'R'

/-- The greedy tail `(?:\s*=\s*[^WHERE\s]+)*` of the join pattern,
returning the characters the loop consumes. -/
def joinRhsLoop (fuel : Nat) (s : List Char) : List Char :=
  match fuel with
  | 0 => []
  | fuel + 1 =>
    let n := wsRun s
    match s.drop n with
    | '=' :: r =>
      let m := wsRun r
      let ch := (r.drop m).takeWhile joinCharOk
      if ch = [] then []
      else
        let consumed := n + 1 + m + ch.length
        s.take consumed ++ joinRhsLoop fuel (s.drop consumed)
    | _ => []

/-- One-position matcher for the join search pattern
`(?:INNER |LEFT |RIGHT )?JOIN (\w+)(?:\s+\w+)?\s+ON ([^WHERE\s]+(?:\s*=\s*[^WHERE\s]+)*)`. -/
def tryJoinAt (s : List Char) : Option (String × String) :=
  let s :=
    if startsWithCi "INNER ".toList s then s.drop 6
    else if startsWithCi "LEFT ".toList s then s.drop 5
    else if startsWithCi "RIGHT ".toList s then s.drop 6
    else s
  if startsWithCi "JOIN ".toList s then
    let (w, r1) := takeWord (s.drop 5)
    if w = [] then none
    else
      let matchTail : List Char → Option (List Char) := fun r =>
        let n := wsRun r
        if n ≥ 1 ∧ startsWithCi "ON ".toList (r.drop n) then some (r.drop (n + 3))
        else none
      let group2 : List Char → Option (String × String) := fun r =>
        let ch := r.takeWhile joinCharOk
        if ch = [] then none
        else
          let rest := r.drop ch.length
          some (⟨w⟩, ⟨ch ++ joinRhsLoop (rest.length + 1) rest⟩)
      let withOpt : Option (String × String) :=
        let n1 := wsRun r1
        if n1 ≥ 1 then
          let (w2, r2) := takeWord (r1.drop n1)
          if w2 ≠ [] then
            match matchTail r2 with
            | some r => group2 r
            | none => none
          else none
        else none
      match withOpt with
      | some res => some res
      | none =>
        match matchTail r1 with
        | some r => group2 r
        | none => none
  else none

/-- `QueryParser._parse_join_condition`: the prefix match
`(\w+)\.(\w+)\s*=\s*(\w+)\.(\w+)`, else the empty dict. -/
def parseJoinCondition (joinOn : String) : JoinCond :=
  let cs := (pyStrip joinOn).toList
  let (w1, r1) := takeWord cs
  match w1, r1 with
  | _ :: _, '.' :: r2 =>
    let (w2, r3) := takeWord r2
    if w2 = [] then JoinCond.emptyDict
    else
      match (r3.dropWhile pySpaceChar) with
      | '=' :: r4 =>
        let (w3, r5) := takeWord (r4.dropWhile pySpaceChar)
        match w3, r5 with
        | _ :: _, '.' :: r6 =>
          let (w4, _) := takeWord r6
          if w4 = [] then JoinCond.emptyDict
          else JoinCond.onCond ⟨w1⟩ ⟨w2⟩ ⟨w3⟩ ⟨w4⟩
        | _, _ => JoinCond.emptyDict
      | _ => JoinCond.emptyDict
  | _, _ => JoinCond.emptyDict

/-- The `ORDER BY\s+(.+?)(?:\s+LIMIT|$)` search of `_parse_select`. -/
def orderByAt (s : List Char) : Option (List Char) :=
  if startsWithCi "ORDER BY".toList s then
    let after := s.drop 8
    let n := wsRun after
    if n ≥ 1 then
      match after.drop n with
      | [] => none
      | c :: t =>
        let term : List Char → Bool := fun u =>
          u = [] ∨ (wsRun u ≥ 1 ∧ startsWithCi "LIMIT".toList (u.dropWhile pySpaceChar))
        match lazyScan term t 1 with
        | some k => some ((c :: t).take k)
        | none => none
    else none
  else none

/-- The `LIMIT (\d+)` search of `_parse_select`. -/
def limitAt (s : List Char) : Option Nat :=
  if startsWithCi "LIMIT ".toList s then
    let ds := (s.drop 6).takeWhile Char.isDigit
    if ds = [] then none else some (digitsToNat ds)
  else none

/-- `QueryParser._parse_select`. -/
def parseSelect (nq : String) : Except String ParsedQuery := do
  let cs := nq.toList
  let noFrom : Except String (List Char × List Char) :=
    Except.error "SELECT statement must include FROM clause"
  let (colsStr, _) ←
    if startsWithCi "SELECT ".toList cs then
      let rest := cs.drop 7
      match rest with
      | [] => noFrom
      | c :: t =>
        match lazyScan (fun u => startsWithCi " FROM".toList u) t 1 with
        | some k => Except.ok ((c :: t).take k, [])
        | none => noFrom
    else noFrom
  let colsStr := pyStrip ⟨colsStr⟩
  let columns : List String :=
    if colsStr = "*" then ["*"]
    else (splitOnChar ',' colsStr.toList).map (fun c => pyStrip ⟨c⟩)
  let fromWord : Option (List Char) :=
    scanFirst
      (fun s =>
        if startsWithCi "FROM ".toList s ∧ (takeWord (s.drop 5)).1 ≠ [] then
          some (takeWord (s.drop 5)).1
        else none)
      cs
  match fromWord with
  | none => Except.error "SELECT statement must include FROM clause"
  | some tw =>
    let joinM := scanFirst tryJoinAt cs
    Except.ok
      { query_type := "SELECT", table_name := some ⟨tw⟩,
        columns := some (ColsField.names columns),
        join_table := joinM.map (·.1),
        join_condition := joinM.map (fun p => parseJoinCondition (pyStrip p.2)),
        where_clause := parseWhereClause nq,
        order_by := (scanFirst orderByAt cs).map
          (fun g => (splitOnChar ',' g).map (fun c => pyStrip ⟨c⟩)),
        limit := scanFirst limitAt cs }

/-- `QueryParser._parse_update`: the anchored pattern
`UPDATE (\w+) SET (.+?)(?:\s+WHERE\s+(.+))?$`. -/
def parseUpdate (nq : String) : Except String ParsedQuery := do
  let cs := nq.toList
  let fail : Except String ParsedQuery := Except.error "Invalid UPDATE syntax"
  if startsWithCi "UPDATE ".toList cs then
    let (w, r1) := takeWord (cs.drop 7)
    if w ≠ [] ∧ startsWithCi " SET ".toList r1 then
      let rest := r1.drop 5
      let tailOk : List Char → Bool := fun u =>
        u = [] ∨
          (wsRun u ≥ 1 ∧
            (let u1 := u.dropWhile pySpaceChar
             startsWithCi "WHERE".toList u1 ∧ wsRun (u1.drop 5) ≥ 1 ∧
               (u1.drop 5).dropWhile pySpaceChar ≠ []))
      match rest with
      | [] => fail
      | c :: t =>
        match lazyScan tailOk t 1 with
        | none => fail
        | some k =>
          let setStr := (c :: t).take k
          let set_values : Filter :=
            ((splitOnChar ',' setStr).map (fun p => pyStrip ⟨p⟩)).foldl
              (fun acc part =>
                match eqMatchSet part.toList with
                | some (col, vs) => alSet strEq acc col (parseValue (pyStrip vs))
                | none => acc)
              []
          Except.ok
            { query_type := "UPDATE", table_name := some ⟨w⟩,
              set_values := some set_values,
              where_clause := parseWhereClause nq }
    else fail
  else fail

/-- `QueryParser._parse_delete`: the anchored pattern
`DELETE FROM (\w+)(?:\s+WHERE\s+(.+))?$`. -/
def parseDelete (nq : String) : Except String ParsedQuery :=
  let cs := nq.toList
  let fail : Except String ParsedQuery := Except.error "Invalid DELETE syntax"
  if startsWithCi "DELETE FROM ".toList cs then
    let (w, r1) := takeWord (cs.drop 12)
    let tailOk :=
      r1 = [] ∨
        (wsRun r1 ≥ 1 ∧
          (let u1 := r1.dropWhile pySpaceChar
           startsWithCi "WHERE".toList u1 ∧ wsRun (u1.drop 5) ≥ 1 ∧
             (u1.drop 5).dropWhile pySpaceChar ≠ []))
    if w ≠ [] ∧ tailOk then
      Except.ok
        { query_type := "DELETE", table_name := some ⟨w⟩,
          where_clause := parseWhereClause nq }
    else fail
  else fail

/-- `QueryParser._parse_drop_table`. -/
def parseDropTable (nq : String) : Except String ParsedQuery :=
  let cs := nq.toList
  if startsWithCi "DROP TABLE ".toList cs ∧ (takeWord (cs.drop 11)).1 ≠ [] then
    Except.ok
      { query_type := "DROP_TABLE",
        table_name := some ⟨(takeWord (cs.drop 11)).1⟩ }
  else Except.error "Invalid DROP TABLE syntax"

/-- `QueryParser._parse_describe`: `(?:DESCRIBE|DESC) (\w+)`. -/
def parseDescribe (nq : String) : Except String ParsedQuery :=
  let cs := nq.toList
  let word : Option (List Char) :=
    if startsWithCi "DESCRIBE ".toList cs ∧ (takeWord (cs.drop 9)).1 ≠ [] then
      some (takeWord (cs.drop 9)).1
    else if startsWithCi "DESC ".toList cs ∧ (takeWord (cs.drop 5)).1 ≠ [] then
      some (takeWord (cs.drop 5)).1
    else none
  match word with
  | some w => Except.ok { query_type := "DESCRIBE", table_name := some ⟨w⟩ }
  | none => Except.error "Invalid DESCRIBE syntax"

/-- `QueryParser.parse`: strip, drop a trailing semicolon, normalize
whitespace, reject the malformed INSERT/DELETE prefixes, and dispatch on
the uppercased text. -/
def parse (query : String) : Except String ParsedQuery :=
  let query := pyStrip query
  if query = "" then Except.error "Empty query"
  else
    let query := if strEndsWith query ";" then query.dropRight 1 else query
    let nq := normSpace query
    let up := pyUpper nq
    if strStartsWith up "INSERT " ∧ !strStartsWith up "INSERT INTO" then
      Except.error "Invalid INSERT syntax"
    else if strStartsWith up "DELETE " ∧ !strStartsWith up "DELETE FROM" then
      Except.error "Invalid DELETE syntax"
    else if strStartsWith up "CREATE TABLE" then parseCreateTable nq
    else if strStartsWith up "INSERT INTO" then parseInsert nq
    else if strStartsWith up "SELECT" then parseSelect nq
    else if strStartsWith up "UPDATE" then parseUpdate nq
    else if strStartsWith up "DELETE FROM" then parseDelete nq
    else if strStartsWith up "DROP TABLE" then parseDropTable nq
    else if up = "SHOW TABLES" then Except.ok { query_type := "SHOW TABLES" }
    else if strStartsWith up "DESCRIBE" ∨ strStartsWith up "DESC" then parseDescribe nq
    else Except.error s!"Unsupported query type: {query}"

/-- `Database.execute_query`: parse, dispatch on the query type, and turn
any raise into a failed result. -/
def Database.execute_query (db : Database) (query : String) :
    Database × QueryResult :=
  match parse (pyStrip query) with
  | Except.error e => (db, { success := false, error := some e })
  | Except.ok pq =>
    if pq.query_type = "CREATE_TABLE" then db.execute_create_table pq
    else if pq.query_type = "INSERT" then db.execute_insert pq
    else if pq.query_type = "SELECT" then db.execute_select pq
    else if pq.query_type = "UPDATE" then db.execute_update pq
    else if pq.query_type = "DELETE" then db.execute_delete pq
    else if pq.query_type = "DROP_TABLE" then db.execute_drop_table pq
    else if pq.query_type = "SHOW_TABLES" then db.execute_show_tables
    else if pq.query_type = "DESCRIBE" then db.execute_describe pq
    else
      (db, { success := false,
             error := some s!"Unsupported query type: {pq.query_type}" })

/-! ## Invariants of the table layer -/

/-- Row position `i` lies in the bucket of value `v` (up to Python `==`). -/
def inBucket (bs : Buckets) (v : Value) (i : Nat) : Prop :=
  ∃ l, bGet bs v = some l ∧ i ∈ l

/-- Position `i` lies in column `c`'s index under value `v`. -/
def InIdx (idx : Idx) (c : String) (v : Value) (i : Nat) : Prop :=
  ∃ bs, alGet strEq idx c = some bs ∧ inBucket bs v i

/-- Row `i` of `rows` holds a non-absent value Python-equal to `v` in
column `c`. -/
def RowHoldsAt (rows : List Row) (c : String) (v : Value) (i : Nat) : Prop :=
  ∃ h : i < rows.length, ∃ w, rowGet (rows.get ⟨i, h⟩) c = some w ∧ pyEq w v = true

/-- Every index maps every value to exactly the set of row positions
currently holding that value. -/
def IdxExact (t : Table) : Prop :=
  ∀ c bs, alGet strEq t.indexes c = some bs →
    ∀ v i, inBucket bs v i ↔ RowHoldsAt t.rows c v i

/-- Structural well-formedness of one bucket map: keys pairwise distinct
under Python `==`, buckets non-empty and duplicate-free. -/
def BucketsWF (bs : Buckets) : Prop :=
  bs.Pairwise (fun p q => pyEq p.1 q.1 = false) ∧
    ∀ p ∈ bs, p.2 ≠ [] ∧ p.2.Nodup

/-- Structural well-formedness of the index dict. -/
def IdxWF (idx : Idx) : Prop :=
  (alKeys idx).Nodup ∧ ∀ p ∈ idx, BucketsWF p.2

/-- No two live rows hold Python-equal non-absent values in a
unique-constrained column. -/
def UniqueOk (t : Table) : Prop :=
  ∀ c, c ∈ t.unique_columns →
    t.rows.Pairwise (fun r1 r2 =>
      ∀ v w, rowGet r1 c = some v → rowGet r2 c = some w → pyEq v w = false)

/-- A column has an index exactly when it is unique-constrained. -/
def IdxKeysOk (t : Table) : Prop :=
  ∀ c, (alGet strEq t.indexes c).isSome ↔ c ∈ t.unique_columns

/-- The unique set is the set computed from the column dict's flags. -/
def ColsUniqOk (t : Table) : Prop :=
  ∀ c, c ∈ t.unique_columns ↔
    ∃ col, alGet strEq t.columns c = some col ∧
      (col.primary_key = true ∨ col.unique = true)

/-- The column dict is keyed by the columns' names, without duplicates,
and its values are as `Column.__init__` leaves them. -/
def ColsOk (t : Table) : Prop :=
  (alKeys t.columns).Nodup ∧
    ∀ p ∈ t.columns, p.1 = p.2.name ∧
      p.2.data_type ∈ supportedTypes ∧
      (p.2.primary_key = true → p.2.nullable = false)

/-- The full invariant of a well-formed table. -/
def Wf (t : Table) : Prop :=
  ColsOk t ∧ ColsUniqOk t ∧ IdxKeysOk t ∧ IdxWF t.indexes ∧
    IdxExact t ∧ UniqueOk t ∧ t.unique_columns.Nodup

/-- The tables reachable by the engine's own operations when the declared
column names are pairwise distinct: freshly created, reloaded from the
serialized form, or mutated by a successful insert, update, or delete. -/
inductive ReachableD : Table → Prop where
  | create (name : String) (cols : List Column) (t : Table) :
      (cols.map Column.name).Nodup →
      (∀ col ∈ cols, ∃ n dt pk uq nb, Column.make n dt pk uq nb = Except.ok col) →
      Table.make name cols = Except.ok t →
      ReachableD t
  | reload (t t' : Table) : ReachableD t →
      Table.from_dict (Table.to_dict t) = Except.ok t' → ReachableD t'
  | ins (t : Table) (row : Row) (t' : Table) : ReachableD t →
      t.insertS row = (t', none) → ReachableD t'
  | upd (t : Table) (sv : Filter) (w : Option Filter) (t' : Table) (n : Nat) :
      ReachableD t → t.updateS sv w = (t', Except.ok n) → ReachableD t'
  | del (t : Table) (w : Option Filter) (t' : Table) (n : Nat) :
      ReachableD t → t.deleteS w = (t', Except.ok n) → ReachableD t'

/-- The pure coercion part of `_validate_row`: every column's value is
coerced by `validate_value`, with no uniqueness check; on success this is
the row `_validate_row` returns. -/
def coerceRow (t : Table) (row : Row) : Except String Row :=
  t.columns.foldlM
    (fun (vr : Row) p =>
      (p.2.validate_value (rowGet row p.1)).map (fun vv => alSet strEq vr p.1 vv))
    []

/-! ## Concrete instances (the spec's scenarios and the claims' inputs) -/

/-- The `users` table right after `CREATE TABLE users (id INT PRIMARY KEY,
name TEXT)`. -/
def usersT0 : Table :=
  ⟨"users",
   [("id", ⟨"id", "INT", true, false, false⟩),
    ("name", ⟨"name", "TEXT", false, false, true⟩)],
   ["id", "name"], [], [("id", [])], some "id", ["id"]⟩

/-- Scenario A after inserting `(1, 'Alice')`. -/
def usersT1 : Table :=
  ⟨"users",
   [("id", ⟨"id", "INT", true, false, false⟩),
    ("name", ⟨"name", "TEXT", false, false, true⟩)],
   ["id", "name"],
   [[("id", some (Value.vint 1)), ("name", some (Value.vtext "Alice"))]],
   [("id", [(Value.vint 1, [0])])], some "id", ["id"]⟩

/-- Scenario A after inserting `(1, 'Alice')` and `(2, 'Bob')`. -/
def usersT2 : Table :=
  ⟨"users",
   [("id", ⟨"id", "INT", true, false, false⟩),
    ("name", ⟨"name", "TEXT", false, false, true⟩)],
   ["id", "name"],
   [[("id", some (Value.vint 1)), ("name", some (Value.vtext "Alice"))],
    [("id", some (Value.vint 2)), ("name", some (Value.vtext "Bob"))]],
   [("id", [(Value.vint 1, [0]), (Value.vint 2, [1])])], some "id", ["id"]⟩

/-- The state `UPDATE users SET id = 1` leaves behind when its
revalidation fails on the second row: the rows are untouched, but `2` has
been removed from the `id` index and never reinserted. -/
def usersT2Upd : Table :=
  ⟨"users",
   [("id", ⟨"id", "INT", true, false, false⟩),
    ("name", ⟨"name", "TEXT", false, false, true⟩)],
   ["id", "name"],
   [[("id", some (Value.vint 1)), ("name", some (Value.vtext "Alice"))],
    [("id", some (Value.vint 2)), ("name", some (Value.vtext "Bob"))]],
   [("id", [(Value.vint 1, [0])])], some "id", ["id"]⟩

/-- `usersT2` after the column-less `INSERT INTO users VALUES (3, 'Cy', 99)`:
the surplus `99` is dropped. -/
def usersT3Cy : Table :=
  ⟨"users",
   [("id", ⟨"id", "INT", true, false, false⟩),
    ("name", ⟨"name", "TEXT", false, false, true⟩)],
   ["id", "name"],
   [[("id", some (Value.vint 1)), ("name", some (Value.vtext "Alice"))],
    [("id", some (Value.vint 2)), ("name", some (Value.vtext "Bob"))],
    [("id", some (Value.vint 3)), ("name", some (Value.vtext "Cy"))]],
   [("id", [(Value.vint 1, [0]), (Value.vint 2, [1]), (Value.vint 3, [2])])],
   some "id", ["id"]⟩

/-- `usersT2` after the column-less `INSERT INTO users VALUES (7)`: the
missing `name` is stored as `NULL`. -/
def usersT3Seven : Table :=
  ⟨"users",
   [("id", ⟨"id", "INT", true, false, false⟩),
    ("name", ⟨"name", "TEXT", false, false, true⟩)],
   ["id", "name"],
   [[("id", some (Value.vint 1)), ("name", some (Value.vtext "Alice"))],
    [("id", some (Value.vint 2)), ("name", some (Value.vtext "Bob"))],
    [("id", some (Value.vint 7)), ("name", none)]],
   [("id", [(Value.vint 1, [0]), (Value.vint 2, [1]), (Value.vint 7, [2])])],
   some "id", ["id"]⟩

/-- A table declared with two columns both named `a`, the shadowed first
one carrying the `UNIQUE` flag (`Table.__init__` accepts this). -/
def tDup0 : Table :=
  ⟨"t", [("a", ⟨"a", "INT", false, false, true⟩)], ["a", "a"], [],
   [("a", [])], none, ["a"]⟩

/-- `tDup0` after inserting `{a: 1}`. -/
def tDup1 : Table :=
  ⟨"t", [("a", ⟨"a", "INT", false, false, true⟩)], ["a", "a"],
   [[("a", some (Value.vint 1))]], [("a", [(Value.vint 1, [0])])], none, ["a"]⟩

/-- `tDup1` as deserialized: `a` is still unique-constrained but its index
is gone, because only the shadowing non-unique column was serialized. -/
def tDup2 : Table :=
  ⟨"t", [("a", ⟨"a", "INT", false, false, true⟩)], ["a", "a"],
   [[("a", some (Value.vint 1))]], [], none, ["a"]⟩

/-- `tDup2` after a second insert of `{a: 1}`, which no index blocks. -/
def tDup3 : Table :=
  ⟨"t", [("a", ⟨"a", "INT", false, false, true⟩)], ["a", "a"],
   [[("a", some (Value.vint 1))], [("a", some (Value.vint 1))]], [], none, ["a"]⟩

/-- An empty database whose storage backend rejects every write. -/
def dbSaveFail : Database := ⟨[], fun _ _ => false⟩

/-- A database holding the Scenario A `users` table. -/
def dbA : Database := ⟨[("users", usersT2)], fun _ _ => true⟩

/-- Scenario E's `users` table with its single row `(1, 'Ann')`. -/
def usersE : Table :=
  ⟨"users",
   [("id", ⟨"id", "INT", true, false, false⟩),
    ("name", ⟨"name", "TEXT", false, false, true⟩)],
   ["id", "name"],
   [[("id", some (Value.vint 1)), ("name", some (Value.vtext "Ann"))]],
   [("id", [(Value.vint 1, [0])])], some "id", ["id"]⟩

/-- Scenario E's `orders` table with its single row `(100, 1, 50)`. -/
def ordersE : Table :=
  ⟨"orders",
   [("id", ⟨"id", "INT", true, false, false⟩),
    ("userId", ⟨"userId", "INT", false, false, true⟩),
    ("total", ⟨"total", "REAL", false, false, true⟩)],
   ["id", "userId", "total"],
   [[("id", some (Value.vint 100)), ("userId", some (Value.vint 1)),
     ("total", some (Value.vreal 50))]],
   [("id", [(Value.vint 100, [0])])], some "id", ["id"]⟩

/-- Scenario E's database. -/
def dbE : Database := ⟨[("users", usersE), ("orders", ordersE)], fun _ _ => true⟩

/-- Scenario E's `SELECT ... JOIN` as the parser leaves it (the join
condition collapses to the empty dict). -/
def pqE : ParsedQuery :=
  { query_type := "SELECT", table_name := some "users",
    columns := some (ColsField.names ["*"]), join_table := some "orders",
    join_condition := some JoinCond.emptyDict }

/-- `INSERT INTO users VALUES (3, 'Cy', 99)` as parsed: a column-less
value tuple. -/
def pqIns3 : ParsedQuery :=
  { query_type := "INSERT", table_name := some "users",
    values := some [InsertRow.valuesOnly
      [some (Value.vint 3), some (Value.vtext "Cy"), some (Value.vint 99)]] }

/-- The row `usersE.selectT` yields for `(1, 'Ann')`. -/
def rowAnn : Row := [("id", some (Value.vint 1)), ("name", some (Value.vtext "Ann"))]

/-- The row `ordersE.selectT` yields for `(100, 1, 50)`. -/
def rowOrd : Row :=
  [("id", some (Value.vint 100)), ("userId", some (Value.vint 1)),
   ("total", some (Value.vreal 50))]


/-! # Proofs

Everything from here on is a lemma or theorem about the definitions
above. -/

namespace Value

theorem pyEq_refl (a : Value) : pyEq a a = true := by
  cases a <;> simp [pyEq, toNum]

theorem pyEq_symm {a b : Value} (h : pyEq a b = true) : pyEq b a = true := by
  cases a <;> cases b <;> simp_all [pyEq, toNum]

theorem pyEq_trans {a b c : Value} (h₁ : pyEq a b = true)
    (h₂ : pyEq b c = true) : pyEq a c = true := by
  cases a <;> cases b <;> cases c <;> simp_all [pyEq, toNum]

end Value

theorem pyEq_false_symm {a b : Value} (h : pyEq a b = false) :
    pyEq b a = false := by
  by_contra hc
  exact absurd (Value.pyEq_symm (by simpa using Bool.not_eq_false _ |>.mp hc)) (by simp [h])

theorem pyEqOpt_refl (a : Option Value) : pyEqOpt a a = true := by
  cases a <;> simp [pyEqOpt, Value.pyEq_refl]

open Value

/-! ### Association-list lemmas -/

theorem strEq_iff {a b : String} : strEq a b = true ↔ a = b := by
  simp [strEq]

theorem pyEq_eq_false_of_not {a b : Value} (h : ¬ pyEq a b = true) :
    pyEq a b = false := by
  cases hab : pyEq a b
  · rfl
  · exact absurd hab h

theorem pyEq_false_of_left {w v u : Value} (hwv : pyEq w v = true)
    (hwu : ¬ pyEq w u = true) : pyEq v u = false := by
  refine pyEq_eq_false_of_not (fun hvu => hwu ?_)
  exact pyEq_trans hwv hvu

theorem pyEq_false_of_right {w v u : Value} (hwv : ¬ pyEq w v = true)
    (hwu : pyEq w u = true) : pyEq v u = false := by
  refine pyEq_eq_false_of_not (fun hvu => hwv ?_)
  exact pyEq_trans hwu (pyEq_symm hvu)

theorem alGet_alSet {β : Type} (l : List (String × β)) (k k' : String) (v : β) :
    alGet strEq (alSet strEq l k v) k' =
      if k = k' then some v else alGet strEq l k' := by
  induction l with
  | nil => by_cases h : k = k' <;> simp [alSet, alGet, strEq, h]
  | cons p rest ih =>
    obtain ⟨a, b⟩ := p
    by_cases hak : a = k
    · subst hak
      by_cases hkk : a = k' <;> simp [alSet, alGet, strEq, hkk]
    · by_cases hak' : a = k'
      · subst hak'
        have hkk : k ≠ a := fun h => hak h.symm
        simp [alSet, alGet, strEq, hak, hkk]
      · simp [alSet, alGet, strEq, hak, hak', ih]

theorem alGet_mem {β : Type} {l : List (String × β)} {c : String} {b : β}
    (h : alGet strEq l c = some b) : (c, b) ∈ l := by
  induction l with
  | nil => simp [alGet] at h
  | cons p rest ih =>
    obtain ⟨a, b'⟩ := p
    by_cases hac : a = c
    · subst hac
      simp [alGet, strEq] at h
      simp [h]
    · simp [alGet, strEq, hac] at h
      exact List.mem_cons_of_mem _ (ih h)

theorem alGet_of_mem_nodup {β : Type} {l : List (String × β)} {c : String}
    {b : β} (hn : (alKeys l).Nodup) (h : (c, b) ∈ l) :
    alGet strEq l c = some b := by
  induction l with
  | nil => simp at h
  | cons p rest ih =>
    obtain ⟨a, b'⟩ := p
    have hn' : (∀ x : β, (a, x) ∉ rest) ∧ (rest.map (·.1)).Nodup := by
      simpa [alKeys] using hn
    rcases List.mem_cons.mp h with heq | hmem
    · cases heq
      simp [alGet, strEq]
    · have hac : a ≠ c := by
        rintro rfl
        exact hn'.1 b hmem
      simp [alGet, strEq, hac]
      exact ih (by simpa [alKeys] using hn'.2) hmem

theorem alGet_isSome_iff_mem_keys {β : Type} {l : List (String × β)}
    {c : String} : (alGet strEq l c).isSome ↔ c ∈ alKeys l := by
  induction l with
  | nil => simp [alGet, alKeys]
  | cons p rest ih =>
    obtain ⟨a, b⟩ := p
    by_cases hac : a = c
    · subst hac; simp [alGet, strEq, alKeys]
    · simp [alGet, strEq, hac, alKeys, ih, Ne.symm hac]

theorem rowGet_alSet (r : Row) (k c : String) (v : Option Value) :
    rowGet (alSet strEq r k v) c = if k = c then v else rowGet r c := by
  unfold rowGet
  rw [alGet_alSet]
  by_cases h : k = c <;> simp [h]

/-! ### Bucket lemmas -/

theorem bGet_congr {bs : Buckets} {v w : Value} (h : pyEq v w = true) :
    bGet bs v = bGet bs w := by
  induction bs with
  | nil => rfl
  | cons p rest ih =>
    by_cases hk : pyEq p.1 v = true
    · have hw : pyEq p.1 w = true := pyEq_trans hk h
      simp [bGet, hk, hw]
    · have hw : pyEq p.1 w = false :=
        pyEq_eq_false_of_not (fun hpw => hk (pyEq_trans hpw (pyEq_symm h)))
      simp [bGet, hk, hw, ih]

theorem inBucket_bApp {bs : Buckets} {v : Value} {i : Nat} {u : Value}
    {j : Nat} :
    inBucket (bApp bs v i) u j ↔
      inBucket bs u j ∨ (j = i ∧ pyEq v u = true) := by
  induction bs with
  | nil =>
    by_cases h : pyEq v u = true
    · simp [inBucket, bApp, bGet, h, and_comm]
    · simp [inBucket, bApp, bGet, h]
  | cons p rest ih =>
    obtain ⟨w, l⟩ := p
    by_cases hwv : pyEq w v = true
    · by_cases hwu : pyEq w u = true
      · have hvu : pyEq v u = true := pyEq_trans (pyEq_symm hwv) hwu
        simp [inBucket, bApp, bGet, hwv, hwu, hvu]
      · have hvu : pyEq v u = false := pyEq_false_of_left hwv hwu
        simp [inBucket, bApp, bGet, hwv, hwu, hvu]
    · by_cases hwu : pyEq w u = true
      · have hvu : pyEq v u = false := pyEq_false_of_right hwv hwu
        simp [inBucket, bApp, bGet, hwv, hwu, hvu]
      · simpa [inBucket, bApp, bGet, hwv, hwu] using ih

theorem erase_singleton_of_nil {l : List Nat} {i : Nat} (h : i ∈ l)
    (hn : l.Nodup) (he : l.erase i = []) : l = [i] := by
  have h1 := List.length_erase_of_mem h
  rw [he] at h1
  have h2 := List.length_pos_of_mem h
  have h3 : l.length = 1 := by simp at h1; omega
  match l, h3 with
  | [x], _ =>
    have : i = x := by simpa using h
    simp [this]

theorem bRemove_cons_pos_nil {w : Value} {l : List Nat} {rest : Buckets}
    {v : Value} {i : Nat} (hwv : pyEq w v = true) (hmem : i ∈ l)
    (he : l.erase i = []) : bRemove ((w, l) :: rest) v i = Except.ok rest := by
  have hc : l.contains i = true := by simpa using hmem
  simp [bRemove, pyListRemove, hwv, hc, hmem, he, Except.map]

theorem bRemove_cons_pos_cons {w : Value} {l : List Nat} {rest : Buckets}
    {v : Value} {i : Nat} (hwv : pyEq w v = true) (hmem : i ∈ l)
    (he : ¬ l.erase i = []) :
    bRemove ((w, l) :: rest) v i = Except.ok ((w, l.erase i) :: rest) := by
  have hc : l.contains i = true := by simpa using hmem
  simp [bRemove, pyListRemove, hwv, hc, hmem, he, Except.map]

theorem bRemove_cons_pos_err {w : Value} {l : List Nat} {rest : Buckets}
    {v : Value} {i : Nat} (hwv : pyEq w v = true) (hmem : i ∉ l) :
    bRemove ((w, l) :: rest) v i = Except.error "list.remove(x): x not in list" := by
  have hc : l.contains i = false := by simpa using hmem
  simp [bRemove, pyListRemove, hwv, hc, hmem, Except.map]

theorem bRemove_cons_neg {w : Value} {l : List Nat} {rest : Buckets}
    {v : Value} {i : Nat} (hwv : ¬ pyEq w v = true) :
    bRemove ((w, l) :: rest) v i = (bRemove rest v i).map ((w, l) :: ·) := by
  simp [bRemove, hwv]

theorem bRemove_ok {bs : Buckets} {v : Value} {i : Nat}
    (h : ∀ l, bGet bs v = some l → i ∈ l) :
    ∃ bs', bRemove bs v i = Except.ok bs' := by
  induction bs with
  | nil => exact ⟨[], rfl⟩
  | cons p rest ih =>
    obtain ⟨w, l⟩ := p
    by_cases hwv : pyEq w v = true
    · have hi : i ∈ l := h l (by simp [bGet, hwv])
      by_cases he : l.erase i = []
      · exact ⟨rest, bRemove_cons_pos_nil hwv hi he⟩
      · exact ⟨(w, l.erase i) :: rest, bRemove_cons_pos_cons hwv hi he⟩
    · obtain ⟨rest', hrest⟩ := ih (fun l' hl' => h l' (by simpa [bGet, hwv] using hl'))
      exact ⟨(w, l) :: rest', by simp [bRemove_cons_neg hwv, hrest, Except.map]⟩

theorem bGet_none_of_all_keys_ne {bs : Buckets} {u : Value}
    (h : ∀ p ∈ bs, pyEq p.1 u = false) : bGet bs u = none := by
  induction bs with
  | nil => rfl
  | cons p rest ih =>
    have := h p (by simp)
    simp [bGet, this]
    exact ih (fun q hq => h q (by simp [hq]))

theorem inBucket_bRemove {bs : Buckets} {v : Value} {i : Nat} {bs' : Buckets}
    (hkeys : bs.Pairwise (fun p q => pyEq p.1 q.1 = false))
    (hnd : ∀ p ∈ bs, p.2.Nodup)
    (hok : bRemove bs v i = Except.ok bs') :
    ∀ u j, inBucket bs' u j ↔
      inBucket bs u j ∧ ¬(j = i ∧ pyEq v u = true) := by
  induction bs generalizing bs' with
  | nil =>
    cases hok
    simp [inBucket, bGet]
  | cons p rest ih =>
    obtain ⟨w, l⟩ := p
    rw [List.pairwise_cons] at hkeys
    by_cases hwv : pyEq w v = true
    · by_cases hmem : i ∈ l
      · have hndl : l.Nodup := hnd (w, l) (by simp)
        by_cases he : l.erase i = []
        · rw [bRemove_cons_pos_nil hwv hmem he] at hok
          cases hok
          have hl : l = [i] := erase_singleton_of_nil hmem hndl he
          intro u j
          by_cases hwu : pyEq w u = true
          · have hvu : pyEq v u = true := pyEq_trans (pyEq_symm hwv) hwu
            have hrest : bGet rest u = none :=
              bGet_none_of_all_keys_ne (fun q hq =>
                pyEq_eq_false_of_not (fun hqu =>
                  absurd (hkeys.1 q hq)
                    (by simp [pyEq_trans hwu (pyEq_symm hqu)])))
            simp [inBucket, bGet, hwu, hvu, hl, hrest]
          · have hvu : pyEq v u = false := pyEq_false_of_left hwv hwu
            simp [inBucket, bGet, hwu, hvu]
        · rw [bRemove_cons_pos_cons hwv hmem he] at hok
          cases hok
          intro u j
          by_cases hwu : pyEq w u = true
          · have hvu : pyEq v u = true := pyEq_trans (pyEq_symm hwv) hwu
            simp [inBucket, bGet, hwu, hvu, hndl.mem_erase_iff]
            tauto
          · have hvu : pyEq v u = false := pyEq_false_of_left hwv hwu
            simp [inBucket, bGet, hwu, hvu]
      · rw [bRemove_cons_pos_err hwv hmem] at hok
        cases hok
    · rw [bRemove_cons_neg hwv] at hok
      cases hr : bRemove rest v i with
      | error e => rw [hr] at hok; simp [Except.map] at hok
      | ok rest' =>
        rw [hr] at hok
        simp [Except.map] at hok
        subst hok
        intro u j
        by_cases hwu : pyEq w u = true
        · have hvu : pyEq v u = false := pyEq_false_of_right hwv hwu
          simp [inBucket, bGet, hwu, hvu]
        · have := ih hkeys.2 (fun p hp => hnd p (by simp [hp])) hr
          simpa [inBucket, bGet, hwu] using this u j

theorem bRemove_keys_subset {bs : Buckets} {v : Value} {i : Nat}
    {bs' : Buckets} (hok : bRemove bs v i = Except.ok bs') :
    ∀ q ∈ bs', ∃ l, (q.1, l) ∈ bs := by
  induction bs generalizing bs' with
  | nil => cases hok; simp
  | cons p rest ih =>
    obtain ⟨w, l⟩ := p
    by_cases hwv : pyEq w v = true
    · by_cases hmem : i ∈ l
      · by_cases he : l.erase i = []
        · rw [bRemove_cons_pos_nil hwv hmem he] at hok
          cases hok
          intro q hq
          exact ⟨q.2, by simp [hq]⟩
        · rw [bRemove_cons_pos_cons hwv hmem he] at hok
          cases hok
          intro q hq
          rcases List.mem_cons.mp hq with rfl | hq'
          · exact ⟨l, by simp⟩
          · exact ⟨q.2, by simp [hq']⟩
      · rw [bRemove_cons_pos_err hwv hmem] at hok
        cases hok
    · rw [bRemove_cons_neg hwv] at hok
      cases hr : bRemove rest v i with
      | error e => rw [hr] at hok; simp [Except.map] at hok
      | ok rest' =>
        rw [hr] at hok
        simp [Except.map] at hok
        subst hok
        intro q hq
        rcases List.mem_cons.mp hq with rfl | hq'
        · exact ⟨l, by simp⟩
        · obtain ⟨l', hl'⟩ := ih hr q hq'
          exact ⟨l', by simp [hl']⟩

theorem bApp_keys_cases {v : Value} {i : Nat} :
    ∀ {bs : Buckets} (q : Value × List Nat), q ∈ bApp bs v i →
      (∃ b, (q.1, b) ∈ bs) ∨ pyEq q.1 v = true := by
  intro bs
  induction bs with
  | nil =>
    intro q hq
    simp [bApp] at hq
    simp [hq, pyEq_refl]
  | cons r rest ih =>
    obtain ⟨a, b⟩ := r
    intro q hq
    by_cases hrv : pyEq a v = true
    · simp [bApp, hrv] at hq
      rcases hq with rfl | hq
      · exact Or.inl ⟨b, by simp⟩
      · exact Or.inl ⟨q.2, by simp [hq]⟩
    · simp [bApp, hrv] at hq
      rcases hq with rfl | hq
      · exact Or.inl ⟨b, by simp⟩
      · rcases ih q hq with ⟨b', hb'⟩ | h1
        · exact Or.inl ⟨b', by simp [hb']⟩
        · exact Or.inr h1

theorem BucketsWF_bApp : ∀ {bs : Buckets} {v : Value} {i : Nat},
    BucketsWF bs → ¬ inBucket bs v i → BucketsWF (bApp bs v i) := by
  intro bs
  induction bs with
  | nil =>
    intro v i _ _
    refine ⟨by simp [bApp], ?_⟩
    intro p hp
    simp [bApp] at hp
    simp [hp]
  | cons p rest ih =>
    intro v i h hi
    obtain ⟨hpw, hel⟩ := h
    obtain ⟨w, l⟩ := p
    rw [List.pairwise_cons] at hpw
    by_cases hwv : pyEq w v = true
    · have hil : i ∉ l := by
        intro hmem
        exact hi ⟨l, by simp [bGet, hwv], hmem⟩
      simp only [bApp, hwv, if_pos]
      refine ⟨List.pairwise_cons.mpr ⟨hpw.1, hpw.2⟩, ?_⟩
      intro q hq
      rcases List.mem_cons.mp hq with rfl | hq'
      · have := hel (w, l) (by simp)
        refine ⟨by simp, ?_⟩
        simpa [List.nodup_append] using ⟨this.2, hil⟩
      · exact hel q (by simp [hq'])
    · simp only [bApp, hwv, if_neg]
      have hinot : ¬ inBucket rest v i := by
        intro ⟨l', hl', hm⟩
        exact hi ⟨l', by simpa [bGet, hwv] using hl', hm⟩
      obtain ⟨hpw', hel'⟩ :=
        ih ⟨hpw.2, fun q hq => hel q (by simp [hq])⟩ hinot
      refine ⟨List.pairwise_cons.mpr ⟨?_, hpw'⟩, ?_⟩
      · intro q hq
        rcases bApp_keys_cases q hq with ⟨b, hb⟩ | hk
        · exact hpw.1 (q.1, b) hb
        · exact pyEq_eq_false_of_not (fun hwq => hwv (pyEq_trans hwq hk))
      · intro q hq
        rcases List.mem_cons.mp hq with rfl | hq'
        · exact hel (w, l) (by simp)
        · exact hel' q hq'

theorem BucketsWF_bRemove : ∀ {bs : Buckets} {v : Value} {i : Nat}
    {bs' : Buckets}, BucketsWF bs → bRemove bs v i = Except.ok bs' →
    BucketsWF bs' := by
  intro bs
  induction bs with
  | nil =>
    intro v i bs' _ hok
    cases hok
    exact ⟨by simp, by simp⟩
  | cons p rest ih =>
    intro v i bs' h hok
    obtain ⟨hpw, hel⟩ := h
    obtain ⟨w, l⟩ := p
    rw [List.pairwise_cons] at hpw
    by_cases hwv : pyEq w v = true
    · by_cases hmem : i ∈ l
      · by_cases he : l.erase i = []
        · rw [bRemove_cons_pos_nil hwv hmem he] at hok
          cases hok
          exact ⟨hpw.2, fun q hq => hel q (by simp [hq])⟩
        · rw [bRemove_cons_pos_cons hwv hmem he] at hok
          cases hok
          refine ⟨List.pairwise_cons.mpr ⟨hpw.1, hpw.2⟩, ?_⟩
          intro q hq
          rcases List.mem_cons.mp hq with rfl | hq'
          · exact ⟨he, ((hel (w, l) (by simp)).2).erase i⟩
          · exact hel q (by simp [hq'])
      · rw [bRemove_cons_pos_err hwv hmem] at hok
        cases hok
    · rw [bRemove_cons_neg hwv] at hok
      cases hr : bRemove rest v i with
      | error e => rw [hr] at hok; simp [Except.map] at hok
      | ok rest' =>
        rw [hr] at hok
        simp [Except.map] at hok
        subst hok
        obtain ⟨hpw', hel'⟩ :=
          ih ⟨hpw.2, fun q hq => hel q (by simp [hq])⟩ hr
        refine ⟨List.pairwise_cons.mpr ⟨?_, hpw'⟩, ?_⟩
        · intro q hq
          obtain ⟨l', hl'⟩ := bRemove_keys_subset hr q hq
          exact hpw.1 (q.1, l') hl'
        · intro q hq
          rcases List.mem_cons.mp hq with rfl | hq'
          · exact hel (w, l) (by simp)
          · exact hel' q hq'

/-! ### Index-dict lemmas -/

theorem alKeys_updIdx (row : Row) (i : Nat) (idx : Idx) :
    alKeys (updIdx row i idx) = alKeys idx := by
  induction idx with
  | nil => rfl
  | cons p rest ih =>
    cases hv : rowGet row p.1 <;> simp [updIdx, alKeys, hv] <;>
      simpa [updIdx, alKeys] using ih

theorem alGet_updIdx (row : Row) (i : Nat) (idx : Idx) (c : String) :
    alGet strEq (updIdx row i idx) c =
      (alGet strEq idx c).map (fun bs =>
        match rowGet row c with
        | none => bs
        | some v => bApp bs v i) := by
  induction idx with
  | nil => simp [updIdx, alGet]
  | cons p rest ih =>
    obtain ⟨a, bs⟩ := p
    by_cases hac : a = c
    · subst hac
      cases hv : rowGet row a <;> simp [updIdx, alGet, strEq, hv]
    · cases hv : rowGet row a <;> simp [updIdx, alGet, strEq, hac, hv] <;>
        simpa [updIdx] using ih

theorem remIdx_fst_keys (row : Row) (i : Nat) (idx : Idx) :
    alKeys (remIdx row i idx).1 = alKeys idx := by
  induction idx with
  | nil => rfl
  | cons p rest ih =>
    obtain ⟨c, bs⟩ := p
    cases hv : rowGet row c with
    | none => simpa [remIdx, alKeys, hv] using ih
    | some v =>
      cases hr : bRemove bs v i with
      | ok bs' => simpa [remIdx, alKeys, hv, hr] using ih
      | error e => simp [remIdx, alKeys, hv, hr]

theorem remIdx_ok_of {row : Row} {i : Nat} {idx : Idx}
    (hsucc : ∀ p ∈ idx, ∀ v, rowGet row p.1 = some v →
      ∃ bs', bRemove p.2 v i = Except.ok bs') :
    (remIdx row i idx).2 = none := by
  induction idx with
  | nil => rfl
  | cons p rest ih =>
    obtain ⟨c, bs⟩ := p
    cases hv : rowGet row c with
    | none =>
      simpa [remIdx, hv] using ih (fun q hq v h => hsucc q (by simp [hq]) v h)
    | some v =>
      obtain ⟨bs', hbs'⟩ := hsucc (c, bs) (by simp) v hv
      simpa [remIdx, hv, hbs'] using
        ih (fun q hq v h => hsucc q (by simp [hq]) v h)

theorem remIdx_ok_get {row : Row} {i : Nat} {idx : Idx}
    (hok : (remIdx row i idx).2 = none) :
    ∀ c bs, alGet strEq idx c = some bs →
      ∃ bs', alGet strEq (remIdx row i idx).1 c = some bs' ∧
        ((rowGet row c = none ∧ bs' = bs) ∨
          (∃ v, rowGet row c = some v ∧ bRemove bs v i = Except.ok bs')) := by
  induction idx with
  | nil => intro c bs h; simp [alGet] at h
  | cons p rest ih =>
    obtain ⟨a, abs⟩ := p
    intro c bs hget
    by_cases hac : a = c
    · subst hac
      have hbs : abs = bs := by simpa [alGet, strEq] using hget
      subst hbs
      cases hv : rowGet row a with
      | none =>
        refine ⟨abs, ?_, Or.inl ⟨rfl, rfl⟩⟩
        simp [remIdx, hv, alGet, strEq]
      | some v =>
        cases hr : bRemove abs v i with
        | ok bs' =>
          refine ⟨bs', ?_, Or.inr ⟨v, rfl, hr⟩⟩
          simp [remIdx, hv, hr, alGet, strEq]
        | error e =>
          exfalso
          simp [remIdx, hv, hr] at hok
    · simp [alGet, strEq, hac] at hget
      cases hv : rowGet row a with
      | none =>
        have hok' : (remIdx row i rest).2 = none := by
          simpa [remIdx, hv] using hok
        obtain ⟨bs', h1, h2⟩ := ih hok' c bs hget
        exact ⟨bs', by simpa [remIdx, hv, alGet, strEq, hac] using h1, h2⟩
      | some v =>
        cases hr : bRemove abs v i with
        | ok abs' =>
          have hok' : (remIdx row i rest).2 = none := by
            simpa [remIdx, hv, hr] using hok
          obtain ⟨bs', h1, h2⟩ := ih hok' c bs hget
          exact ⟨bs', by simpa [remIdx, hv, hr, alGet, strEq, hac] using h1, h2⟩
        | error e =>
          exfalso
          simp [remIdx, hv, hr] at hok

/-! ### Validation lemmas -/

theorem colCheck_ok {t : Table} {row : Row} {cname : String} {col : Column}
    {vv : Option Value} (h : colCheck t row cname col = Except.ok vv) :
    col.validate_value (rowGet row cname) = Except.ok vv ∧
      ∀ v, vv = some v → cname ∈ t.unique_columns →
        ∀ bs, alGet strEq t.indexes cname = some bs → bGet bs v = none := by
  unfold colCheck at h
  cases hval : col.validate_value (rowGet row cname) with
  | error e =>
    rw [hval] at h
    simp [bind, Except.bind] at h
  | ok vv0 =>
    rw [hval] at h
    have h' : (match vv0 with
        | some v =>
          if t.unique_columns.contains cname then
            match alGet strEq t.indexes cname with
            | some bs =>
              if (bGet bs v).isSome then Except.error (dupMsg t cname v)
              else pure vv0
            | none => pure vv0
          else pure vv0
        | none => pure vv0) = Except.ok vv := by
      simpa [bind, Except.bind] using h
    clear h
    cases vv0 with
    | none =>
      have hv : (none : Option Value) = vv := by
        simpa [pure, Except.pure] using h'
      subst hv
      exact ⟨rfl, fun v hv => by cases hv⟩
    | some v0 =>
      have h2 : (if t.unique_columns.contains cname then
          (match alGet strEq t.indexes cname with
            | some bs =>
              if (bGet bs v0).isSome then Except.error (dupMsg t cname v0)
              else pure (some v0)
            | none => pure (some v0))
          else pure (some v0) : Except String (Option Value)) = Except.ok vv := h'
      clear h'
      by_cases hu : t.unique_columns.contains cname = true
      · rw [if_pos hu] at h2
        cases hg : alGet strEq t.indexes cname with
        | none =>
          rw [hg] at h2
          have hv : (some v0 : Option Value) = vv := by
            simpa [pure, Except.pure] using h2
          subst hv
          refine ⟨rfl, ?_⟩
          intro v _ _ bs hbs
          cases hbs
        | some bs =>
          rw [hg] at h2
          have h3 : (if (bGet bs v0).isSome then
              Except.error (dupMsg t cname v0)
              else pure (some v0) : Except String (Option Value)) = Except.ok vv := h2
          clear h2
          by_cases hbg : (bGet bs v0).isSome
          · rw [if_pos hbg] at h3; cases h3
          · rw [if_neg hbg] at h3
            have hv : (some v0 : Option Value) = vv := by
              simpa [pure, Except.pure] using h3
            subst hv
            refine ⟨rfl, ?_⟩
            intro v hv _ bs' hbs'
            obtain rfl : bs = bs' := Option.some.inj hbs'
            cases hv
            simpa using hbg
      · rw [if_neg hu] at h2
        have hv : (some v0 : Option Value) = vv := by
          simpa [pure, Except.pure] using h2
        subst hv
        refine ⟨rfl, ?_⟩
        intro v hv hmem
        exact absurd (List.elem_iff.mpr hmem) (by simpa using hu)

/-- The accumulating step of `_validate_row`'s loop. -/
def valStep (t : Table) (row : Row) (vr : Row) (p : String × Column) :
    Except String Row :=
  (colCheck t row p.1 p.2).map (fun vv => alSet strEq vr p.1 vv)

theorem valFold_ok_spec (t : Table) (row : Row) :
    ∀ (cols : List (String × Column)) (vr0 vr : Row),
      (cols.map (·.1)).Nodup →
      (∀ p ∈ cols, alGet strEq vr0 p.1 = none) →
      cols.foldlM (valStep t row) vr0 = Except.ok vr →
      (∀ c, (∀ p ∈ cols, p.1 ≠ c) → alGet strEq vr c = alGet strEq vr0 c) ∧
        ∀ p ∈ cols, ∃ vv, colCheck t row p.1 p.2 = Except.ok vv ∧
          alGet strEq vr p.1 = some vv := by
  intro cols
  induction cols with
  | nil =>
    intro vr0 vr _ _ h
    have hv : vr0 = vr := by simpa [List.foldlM, pure, Except.pure] using h
    subst hv
    exact ⟨fun _ _ => rfl, by simp⟩
  | cons p rest ih =>
    intro vr0 vr hnd hfresh h
    rw [List.foldlM_cons] at h
    cases hcc : colCheck t row p.1 p.2 with
    | error e =>
      have hstep : valStep t row vr0 p = Except.error e := by
        simp [valStep, hcc, Except.map]
      rw [hstep] at h
      simp [bind, Except.bind] at h
    | ok vv0 =>
      have hstep : valStep t row vr0 p = Except.ok (alSet strEq vr0 p.1 vv0) := by
        simp [valStep, hcc, Except.map]
      rw [hstep] at h
      simp only [bind, Except.bind] at h
      have hnd2 : (∀ x : Column, (p.1, x) ∉ rest) ∧ (rest.map (·.1)).Nodup := by
        simpa using hnd
      have hkey : ∀ q ∈ rest, p.1 ≠ q.1 := by
        intro q hq hpq
        refine hnd2.1 q.2 ?_
        rw [hpq]
        simpa using hq
      have hfresh' : ∀ q ∈ rest, alGet strEq (alSet strEq vr0 p.1 vv0) q.1 = none := by
        intro q hq
        rw [alGet_alSet]
        rw [if_neg (hkey q hq)]
        exact hfresh q (by simp [hq])
      obtain ⟨hout, hin⟩ := ih (alSet strEq vr0 p.1 vv0) vr hnd2.2 hfresh' h
      constructor
      · intro c hc
        rw [hout c (fun q hq => hc q (by simp [hq]))]
        rw [alGet_alSet]
        rw [if_neg (hc p (by simp))]
      · intro q hq
        rcases List.mem_cons.mp hq with rfl | hq'
        · refine ⟨vv0, hcc, ?_⟩
          rw [hout q.1 (fun r hr => (hkey r hr).symm)]
          rw [alGet_alSet, if_pos rfl]
        · exact hin q hq'

theorem validate_ok_spec {t : Table} {row : Row} {vr : Row}
    (hc : (alKeys t.columns).Nodup)
    (h : t.validate_row row = Except.ok vr) :
    (∀ c, (∀ p ∈ t.columns, p.1 ≠ c) → alGet strEq vr c = none) ∧
      ∀ p ∈ t.columns, ∃ vv, colCheck t row p.1 p.2 = Except.ok vv ∧
        alGet strEq vr p.1 = some vv := by
  unfold Table.validate_row at h
  cases hf : row.find? (fun p => !(alHasKey strEq t.columns p.1)) with
  | some p => rw [hf] at h; cases h
  | none =>
    rw [hf] at h
    have := valFold_ok_spec t row t.columns [] vr (by simpa [alKeys] using hc)
      (by simp [alGet]) h
    exact ⟨fun c hc' => by simpa [alGet] using this.1 c hc', this.2⟩

theorem coerce_of_validateFold (t : Table) (row : Row) :
    ∀ (cols : List (String × Column)) (vr0 vr : Row),
      cols.foldlM (valStep t row) vr0 = Except.ok vr →
      cols.foldlM
        (fun (vr : Row) p =>
          (p.2.validate_value (rowGet row p.1)).map
            (fun vv => alSet strEq vr p.1 vv))
        vr0 = Except.ok vr := by
  intro cols
  induction cols with
  | nil => intro vr0 vr h; simpa using h
  | cons p rest ih =>
    intro vr0 vr h
    rw [List.foldlM_cons] at h ⊢
    cases hcc : colCheck t row p.1 p.2 with
    | error e =>
      have hstep : valStep t row vr0 p = Except.error e := by
        simp [valStep, hcc, Except.map]
      rw [hstep] at h
      simp [bind, Except.bind] at h
    | ok vv0 =>
      have hval := (colCheck_ok hcc).1
      have hstep : valStep t row vr0 p = Except.ok (alSet strEq vr0 p.1 vv0) := by
        simp [valStep, hcc, Except.map]
      rw [hstep] at h
      simp only [bind, Except.bind] at h
      rw [hval]
      simp only [Except.map, bind, Except.bind]
      exact ih _ _ h

theorem coerce_of_validate {t : Table} {row : Row} {vr : Row}
    (h : t.validate_row row = Except.ok vr) : coerceRow t row = Except.ok vr := by
  unfold Table.validate_row at h
  cases hf : row.find? (fun p => !(alHasKey strEq t.columns p.1)) with
  | some p => rw [hf] at h; cases h
  | none =>
    rw [hf] at h
    exact coerce_of_validateFold t row t.columns [] vr h

/-! ### Row-position lemmas -/

theorem rowHoldsAt_append_singleton {rows : List Row} {r : Row} {c : String}
    {v : Value} {j : Nat} :
    RowHoldsAt (rows ++ [r]) c v j ↔
      RowHoldsAt rows c v j ∨
        (j = rows.length ∧ ∃ w, rowGet r c = some w ∧ pyEq w v = true) := by
  unfold RowHoldsAt
  constructor
  · rintro ⟨hj, w, hw, hpy⟩
    by_cases hlt : j < rows.length
    · refine Or.inl ⟨hlt, w, ?_, hpy⟩
      rw [← hw]
      congr 1
      simp [List.get_eq_getElem]
      rw [List.getElem_append_left hlt]
    · have hjeq : j = rows.length := by
        simp at hj
        omega
      subst hjeq
      refine Or.inr ⟨rfl, w, ?_, hpy⟩
      rw [← hw]
      congr 1
      simp [List.get_eq_getElem]
  · rintro (⟨hj, w, hw, hpy⟩ | ⟨rfl, w, hw, hpy⟩)
    · refine ⟨by simp; omega, w, ?_, hpy⟩
      rw [← hw]
      congr 1
      simp [List.get_eq_getElem]
      rw [List.getElem_append_left hj]
    · refine ⟨by simp, w, ?_, hpy⟩
      rw [← hw]
      congr 1
      simp [List.get_eq_getElem]

theorem rowHoldsAt_set_ne {rows : List Row} {r : Row} {c : String} {v : Value}
    {i j : Nat} (hne : j ≠ i) :
    RowHoldsAt (rows.set i r) c v j ↔ RowHoldsAt rows c v j := by
  unfold RowHoldsAt
  constructor
  · rintro ⟨hj, w, hw, hpy⟩
    have hj' : j < rows.length := by simpa using hj
    refine ⟨hj', w, ?_, hpy⟩
    rw [← hw]
    congr 1
    simp [List.get_eq_getElem]
    rw [List.getElem_set_ne (by omega)]
  · rintro ⟨hj, w, hw, hpy⟩
    refine ⟨by simpa using hj, w, ?_, hpy⟩
    rw [← hw]
    congr 1
    simp [List.get_eq_getElem]
    rw [List.getElem_set_ne (by omega)]

theorem rowHoldsAt_set_self {rows : List Row} {r : Row} {c : String}
    {v : Value} {i : Nat} (hi : i < rows.length) :
    RowHoldsAt (rows.set i r) c v i ↔
      ∃ w, rowGet r c = some w ∧ pyEq w v = true := by
  unfold RowHoldsAt
  constructor
  · rintro ⟨hj, w, hw, hpy⟩
    refine ⟨w, ?_, hpy⟩
    rw [← hw]
    congr 1
    simp [List.get_eq_getElem]
  · rintro ⟨w, hw, hpy⟩
    refine ⟨by simpa using hi, w, ?_, hpy⟩
    rw [← hw]
    congr 1
    simp [List.get_eq_getElem]

/-! ### Rebuild lemmas -/

theorem foldUpd_keys (entries : List (Nat × Row)) (idx0 : Idx) :
    alKeys (entries.foldl (fun idx p => updIdx p.2 p.1 idx) idx0) =
      alKeys idx0 := by
  induction entries generalizing idx0 with
  | nil => rfl
  | cons e rest ih => rw [List.foldl_cons, ih, alKeys_updIdx]

theorem foldUpd_get_none {entries : List (Nat × Row)} {idx0 : Idx}
    {c : String} (h : alGet strEq idx0 c = none) :
    alGet strEq (entries.foldl (fun idx p => updIdx p.2 p.1 idx) idx0) c
      = none := by
  induction entries generalizing idx0 with
  | nil => exact h
  | cons e rest ih =>
    rw [List.foldl_cons]
    exact ih (by rw [alGet_updIdx, h]; rfl)

theorem foldUpd_get_some {entries : List (Nat × Row)} {idx0 : Idx}
    {c : String} {bs0 : Buckets} (h : alGet strEq idx0 c = some bs0) :
    ∃ bs', alGet strEq
        (entries.foldl (fun idx p => updIdx p.2 p.1 idx) idx0) c = some bs' ∧
      ∀ v j, inBucket bs' v j ↔
        (inBucket bs0 v j ∨
          ∃ r, (j, r) ∈ entries ∧ ∃ w, rowGet r c = some w ∧ pyEq w v = true) := by
  induction entries generalizing idx0 bs0 with
  | nil => exact ⟨bs0, h, by simp⟩
  | cons e rest ih =>
    rw [List.foldl_cons]
    have h1 : alGet strEq (updIdx e.2 e.1 idx0) c =
        some (match rowGet e.2 c with
          | none => bs0
          | some v => bApp bs0 v e.1) := by
      rw [alGet_updIdx, h]; rfl
    cases hv : rowGet e.2 c with
    | none =>
      rw [hv] at h1
      obtain ⟨bs', hget, hmem⟩ := ih h1
      refine ⟨bs', hget, ?_⟩
      intro v j
      rw [hmem v j]
      constructor
      · rintro (hb | ⟨r, hr, hw⟩)
        · exact Or.inl hb
        · exact Or.inr ⟨r, by simp [hr], hw⟩
      · rintro (hb | ⟨r, hr, hw⟩)
        · exact Or.inl hb
        · rcases List.mem_cons.mp hr with rfl | hr'
          · obtain ⟨w, hw1, _⟩ := hw
            rw [hv] at hw1
            cases hw1
          · exact Or.inr ⟨r, hr', hw⟩
    | some w0 =>
      rw [hv] at h1
      obtain ⟨bs', hget, hmem⟩ := ih h1
      refine ⟨bs', hget, ?_⟩
      intro v j
      rw [hmem v j]
      constructor
      · rintro (hb | ⟨r, hr, hw⟩)
        · rcases inBucket_bApp.mp hb with hb' | ⟨rfl, hpy⟩
          · exact Or.inl hb'
          · exact Or.inr ⟨e.2, by simp, w0, hv, hpy⟩
        · exact Or.inr ⟨r, by simp [hr], hw⟩
      · rintro (hb | ⟨r, hr, hw⟩)
        · exact Or.inl (inBucket_bApp.mpr (Or.inl hb))
        · rcases List.mem_cons.mp hr with heq | hr'
          · obtain ⟨w, hw1, hpy⟩ := hw
            have hj : j = e.1 := by
              have := congrArg Prod.fst heq
              simpa using this
            have hr2 : r = e.2 := by
              have := congrArg Prod.snd heq
              simpa using this
            subst hj
            rw [hr2, hv] at hw1
            cases hw1
            exact Or.inl (inBucket_bApp.mpr (Or.inr ⟨rfl, hpy⟩))
          · exact Or.inr ⟨r, hr', hw⟩

theorem foldUpd_struct {entries : List (Nat × Row)} {idx0 : Idx}
    (hwf : ∀ p ∈ idx0, BucketsWF p.2)
    (hfresh : ∀ q ∈ entries, ∀ p ∈ idx0, ∀ v, ¬ inBucket p.2 v q.1)
    (hnd : (entries.map (·.1)).Nodup) :
    ∀ p ∈ entries.foldl (fun idx p => updIdx p.2 p.1 idx) idx0,
      BucketsWF p.2 := by
  induction entries generalizing idx0 with
  | nil => exact hwf
  | cons e rest ih =>
    rw [List.foldl_cons]
    have hnd2 : (e.1 ∉ rest.map (·.1)) ∧ (rest.map (·.1)).Nodup := by
      simpa using hnd
    refine ih ?_ ?_ hnd2.2
    · intro p hp
      have hp' : ∃ a b, (a, b) ∈ idx0 ∧
          (match rowGet e.2 a with
            | none => (a, b)
            | some v => (a, bApp b v e.1)) = p := by
        simpa [updIdx] using hp
      obtain ⟨a, b, hab, hqe⟩ := hp'
      cases hv : rowGet e.2 a with
      | none =>
        rw [hv] at hqe
        subst hqe
        exact hwf (a, b) hab
      | some v =>
        rw [hv] at hqe
        subst hqe
        exact BucketsWF_bApp (hwf (a, b) hab) (hfresh e (by simp) (a, b) hab v)
    · intro q hq p hp v
      have hp' : ∃ a b, (a, b) ∈ idx0 ∧
          (match rowGet e.2 a with
            | none => (a, b)
            | some w => (a, bApp b w e.1)) = p := by
        simpa [updIdx] using hp
      obtain ⟨a, b, hab, hqe⟩ := hp'
      cases hv : rowGet e.2 a with
      | none =>
        rw [hv] at hqe
        subst hqe
        exact hfresh q (by simp [hq]) (a, b) hab v
      | some w =>
        rw [hv] at hqe
        subst hqe
        intro hb
        rcases inBucket_bApp.mp hb with hb' | ⟨hje, _⟩
        · exact hfresh q (by simp [hq]) (a, b) hab v hb'
        · exact hnd2.1 (hje ▸ List.mem_map_of_mem (·.1) hq)

theorem alGet_reset (idx : Idx) (c : String) :
    alGet strEq (idx.map (fun p => (p.1, ([] : Buckets)))) c =
      (alGet strEq idx c).map (fun _ => ([] : Buckets)) := by
  induction idx with
  | nil => simp [alGet]
  | cons p rest ih =>
    by_cases hac : p.1 = c
    · simp [alGet, strEq, hac]
    · simp [alGet, strEq, hac, ih]

theorem alKeys_reset (idx : Idx) :
    alKeys (idx.map (fun p => (p.1, ([] : Buckets)))) = alKeys idx := by
  simp [alKeys]

theorem rebuild_keys (t : Table) :
    alKeys (t.rebuild_indexes).indexes = alKeys t.indexes := by
  unfold Table.rebuild_indexes
  rw [foldUpd_keys, alKeys_reset]

theorem rowHoldsAt_iff_enum {rows : List Row} {c : String} {v : Value}
    {j : Nat} :
    RowHoldsAt rows c v j ↔
      ∃ r, (j, r) ∈ rows.enum ∧ ∃ w, rowGet r c = some w ∧ pyEq w v = true := by
  unfold RowHoldsAt
  constructor
  · rintro ⟨hj, w, hw, hpy⟩
    refine ⟨rows.get ⟨j, hj⟩, ?_, w, hw, hpy⟩
    rw [List.mem_enum_iff_get?]
    simp [List.get?_eq_get hj]
  · rintro ⟨r, hr, w, hw, hpy⟩
    rw [List.mem_enum_iff_get?] at hr
    simp only at hr
    obtain ⟨hj, hget⟩ := List.get?_eq_some.mp hr
    exact ⟨hj, w, by rw [hget]; exact hw, hpy⟩

theorem rebuild_exact (t : Table) : IdxExact t.rebuild_indexes := by
  intro c bs' hget v i
  unfold Table.rebuild_indexes at hget
  simp only at hget
  cases hbase : alGet strEq (t.indexes.map (fun p => (p.1, ([] : Buckets)))) c with
  | none => rw [foldUpd_get_none hbase] at hget; cases hget
  | some bs0 =>
    have hbs0 : bs0 = [] := by
      rw [alGet_reset] at hbase
      cases h : alGet strEq t.indexes c with
      | none => rw [h] at hbase; cases hbase
      | some x =>
        rw [h] at hbase
        simpa using hbase.symm
    subst hbs0
    obtain ⟨bs'', hget'', hmem⟩ := foldUpd_get_some hbase
    rw [hget''] at hget
    obtain rfl : bs'' = bs' := Option.some.inj hget
    rw [show (t.rebuild_indexes).rows = t.rows from rfl]
    rw [hmem v i]
    rw [rowHoldsAt_iff_enum]
    simp [inBucket, bGet]

theorem rebuild_struct (t : Table) (hnd : (alKeys t.indexes).Nodup) :
    IdxWF (t.rebuild_indexes).indexes := by
  constructor
  · rw [rebuild_keys]; exact hnd
  · unfold Table.rebuild_indexes
    simp only
    refine foldUpd_struct ?_ ?_ ?_
    · intro p hp
      obtain ⟨q, _, hqe⟩ := List.mem_map.mp hp
      rw [← hqe]
      exact ⟨by simp, by simp⟩
    · intro q _ p hp v
      obtain ⟨q', _, hqe⟩ := List.mem_map.mp hp
      rw [← hqe]
      simp [inBucket, bGet]
    · rw [List.enum_map_fst]
      exact List.nodup_range _

/-! ### `Table.make` characterization -/

theorem alGet_append {β : Type} (l1 l2 : List (String × β)) (k : String) :
    alGet strEq (l1 ++ l2) k =
      match alGet strEq l1 k with
      | some v => some v
      | none => alGet strEq l2 k := by
  induction l1 with
  | nil => simp [alGet]
  | cons p rest ih =>
    by_cases hk : p.1 = k
    · simp [alGet, strEq, hk]
    · simp [alGet, strEq, hk, ih]

theorem alSet_append_of_none {β : Type} {l : List (String × β)} {k : String}
    (v : β) (h : alGet strEq l k = none) :
    alSet strEq l k v = l ++ [(k, v)] := by
  induction l with
  | nil => simp [alSet]
  | cons p rest ih =>
    by_cases hk : p.1 = k
    · simp [alGet, strEq, hk] at h
    · simp [alGet, strEq, hk] at h
      simp [alSet, strEq, hk, ih h]

theorem buildColumns_eq :
    ∀ (cols : List Column) (acc : List (String × Column)),
      (∀ c ∈ cols, alGet strEq acc c.name = none) →
      (cols.map Column.name).Nodup →
      cols.foldl (fun d c => alSet strEq d c.name c) acc =
        acc ++ cols.map (fun c => (c.name, c)) := by
  intro cols
  induction cols with
  | nil => intro acc _ _; simp
  | cons c rest ih =>
    intro acc hfresh hnd
    have hnd2 : (c.name ∉ rest.map Column.name) ∧ (rest.map Column.name).Nodup := by
      simpa using hnd
    rw [List.foldl_cons, alSet_append_of_none c (hfresh c (by simp))]
    rw [ih (acc ++ [(c.name, c)]) ?_ hnd2.2]
    · simp
    · intro c' hc'
      rw [alGet_append]
      rw [hfresh c' (by simp [hc'])]
      have : c.name ≠ c'.name := by
        intro he
        exact hnd2.1 (he ▸ List.mem_map_of_mem Column.name hc')
      simp [alGet, strEq, this]

theorem mem_setAdd {l : List String} {c x : String} :
    x ∈ setAdd l c ↔ x ∈ l ∨ x = c := by
  unfold setAdd
  by_cases h : c ∈ l
  · simp [h]
    intro hx
    subst hx
    exact h
  · simp [h]

theorem nodup_setAdd {l : List String} {c : String} (h : l.Nodup) :
    (setAdd l c).Nodup := by
  unfold setAdd
  by_cases hc : c ∈ l
  · simpa [hc] using h
  · rw [if_neg (by simpa using hc)]
    rw [List.nodup_append]
    refine ⟨h, by simp, ?_⟩
    intro x hx
    simp only [List.mem_singleton]
    intro he
    subst he
    exact hc hx

theorem mkUniqStep_ok {pu pu' : Option String × List String} {c : Column}
    (h : mkUniqStep pu c = Except.ok pu') :
    (∀ x, x ∈ pu'.2 ↔ x ∈ pu.2 ∨ (x = c.name ∧
      (c.primary_key = true ∨ c.unique = true))) ∧
      (pu.2.Nodup → pu'.2.Nodup) := by
  unfold mkUniqStep at h
  by_cases hpk : c.primary_key = true
  · cases hp : pu.1 with
    | some s =>
      rw [hpk, hp] at h
      simp [bind, Except.bind] at h
    | none =>
      rw [hpk, hp] at h
      have h' : (some c.name,
          if c.unique = true then setAdd (setAdd pu.2 c.name) c.name
          else setAdd pu.2 c.name) = pu' := by
        by_cases hu : c.unique = true <;>
          simpa [hu, bind, Except.bind, pure, Except.pure] using h
      rw [← h']
      by_cases hu : c.unique = true
      · rw [if_pos hu]
        refine ⟨?_, fun hn => nodup_setAdd (nodup_setAdd hn)⟩
        intro x
        simp [mem_setAdd, hpk]
      · rw [if_neg hu]
        refine ⟨?_, fun hn => nodup_setAdd hn⟩
        intro x
        simp [mem_setAdd, hpk]
  · have hpk' : c.primary_key = false := by simpa using hpk
    rw [hpk'] at h
    have h' : (pu.1,
        if c.unique = true then setAdd pu.2 c.name else pu.2) = pu' := by
      by_cases hu : c.unique = true <;>
        simpa [hu, bind, Except.bind, pure, Except.pure] using h
    rw [← h']
    by_cases hu : c.unique = true
    · rw [if_pos hu]
      refine ⟨?_, fun hn => nodup_setAdd hn⟩
      intro x
      simp [mem_setAdd, hpk', hu]
    · rw [if_neg hu]
      refine ⟨?_, id⟩
      intro x
      have hu' : c.unique = false := by simpa using hu
      simp [hpk', hu']

theorem mkUniqFold_spec :
    ∀ (cols : List Column) (pu0 pu : Option String × List String),
      cols.foldlM mkUniqStep pu0 = Except.ok pu →
      (∀ x, x ∈ pu.2 ↔ x ∈ pu0.2 ∨
        ∃ col ∈ cols, col.name = x ∧
          (col.primary_key = true ∨ col.unique = true)) ∧
        (pu0.2.Nodup → pu.2.Nodup) := by
  intro cols
  induction cols with
  | nil =>
    intro pu0 pu h
    have : pu0 = pu := by simpa [List.foldlM, pure, Except.pure] using h
    subst this
    exact ⟨by simp, id⟩
  | cons c rest ih =>
    intro pu0 pu h
    rw [List.foldlM_cons] at h
    cases hstep : mkUniqStep pu0 c with
    | error e => rw [hstep] at h; simp [bind, Except.bind] at h
    | ok pu1 =>
      rw [hstep] at h
      simp only [bind, Except.bind] at h
      obtain ⟨hmem1, hnd1⟩ := mkUniqStep_ok hstep
      obtain ⟨hmem2, hnd2⟩ := ih pu1 pu h
      constructor
      · intro x
        rw [hmem2 x, hmem1 x]
        constructor
        · rintro ((hx | ⟨rfl, hf⟩) | ⟨col, hcol, hn, hf⟩)
          · exact Or.inl hx
          · exact Or.inr ⟨c, by simp, rfl, hf⟩
          · exact Or.inr ⟨col, by simp [hcol], hn, hf⟩
        · rintro (hx | ⟨col, hcol, hn, hf⟩)
          · exact Or.inl (Or.inl hx)
          · rcases List.mem_cons.mp hcol with rfl | hcol'
            · exact Or.inl (Or.inr ⟨hn.symm, hf⟩)
            · exact Or.inr ⟨col, hcol', hn, hf⟩
      · exact fun hn => hnd2 (hnd1 hn)

theorem alGet_constMap_nil {l : List String} {c : String} {bs : Buckets}
    (h : alGet strEq (l.map (fun c => (c, ([] : Buckets)))) c = some bs) :
    bs = [] := by
  induction l with
  | nil => cases h
  | cons a rest ih =>
    by_cases hac : a = c
    · simpa [alGet, strEq, hac] using h.symm
    · exact ih (by simpa [alGet, strEq, hac] using h)

theorem column_make_ok {n dt : String} {pk uq nb : Bool} {col : Column}
    (h : Column.make n dt pk uq nb = Except.ok col) :
    col.name = n ∧ col.data_type = pyUpper dt ∧ col.primary_key = pk ∧
      col.unique = uq ∧ col.nullable = (!pk && nb) ∧
      col.data_type ∈ supportedTypes := by
  unfold Column.make at h
  by_cases hs : supportedTypes.contains (pyUpper dt)
  · rw [if_pos hs] at h
    obtain rfl := Except.ok.inj h
    refine ⟨rfl, rfl, rfl, rfl, rfl, ?_⟩
    simpa using hs
  · rw [if_neg hs] at h
    cases h

theorem make_ok_spec {name : String} {cols : List Column} {t : Table}
    (h : Table.make name cols = Except.ok t) :
    t.name = name ∧
      t.columns = cols.foldl (fun d c => alSet strEq d c.name c) [] ∧
      t.column_order = cols.map (·.name) ∧
      t.rows = [] ∧
      t.indexes = t.unique_columns.map (fun c => (c, ([] : Buckets))) ∧
      ∃ pk, cols.foldlM mkUniqStep (none, []) = Except.ok (pk, t.unique_columns) ∧
        t.primary_key = pk := by
  unfold Table.make at h
  cases hf : cols.foldlM mkUniqStep (none, []) with
  | error e => rw [hf] at h; simp [bind, Except.bind] at h
  | ok pu =>
    rw [hf] at h
    have h' : Table.mk name
        (cols.foldl (fun d c => alSet strEq d c.name c) [])
        (cols.map (·.name)) []
        (pu.2.map (fun c => (c, ([] : Buckets)))) pu.1 pu.2 = t := by
      simpa [bind, Except.bind, pure, Except.pure] using h
    rw [← h']
    exact ⟨rfl, rfl, rfl, rfl, rfl, pu.1, rfl, rfl⟩

theorem wf_make {name : String} {cols : List Column} {t : Table}
    (hnd : (cols.map Column.name).Nodup)
    (hcols : ∀ col ∈ cols, ∃ n dt pk uq nb,
      Column.make n dt pk uq nb = Except.ok col)
    (h : Table.make name cols = Except.ok t) : Wf t := by
  obtain ⟨-, hcdict, -, hrows, hidx, pk, hfold, -⟩ := make_ok_spec h
  rw [buildColumns_eq cols [] (by simp [alGet]) hnd] at hcdict
  simp only [List.nil_append] at hcdict
  obtain ⟨hmemu, hndu⟩ := mkUniqFold_spec cols (none, []) (pk, t.unique_columns) hfold
  simp only at hmemu hndu
  have hndu' : t.unique_columns.Nodup := hndu (by simp)
  have hkeys : alKeys t.columns = cols.map Column.name := by
    rw [hcdict]; simp [alKeys]
  refine ⟨⟨by rw [hkeys]; exact hnd, ?_⟩, ?_, ?_, ?_, ?_, ?_, hndu'⟩
  · intro p hp
    rw [hcdict] at hp
    obtain ⟨col, hcol, hpe⟩ := List.mem_map.mp hp
    obtain ⟨n, dt, cpk, cuq, cnb, hmk⟩ := hcols col hcol
    obtain ⟨-, -, hcpk, -, hcnb, hsup⟩ := column_make_ok hmk
    subst hpe
    refine ⟨rfl, hsup, ?_⟩
    intro hpk1
    have hc1 : cpk = true := by rw [← hcpk]; exact hpk1
    rw [hcnb, hc1]
    rfl
  · intro c
    rw [hmemu c]
    simp only [List.not_mem_nil, false_or]
    constructor
    · rintro ⟨col, hcol, rfl, hf⟩
      refine ⟨col, ?_, hf⟩
      apply alGet_of_mem_nodup (by rw [hkeys]; exact hnd)
      rw [hcdict]
      exact List.mem_map_of_mem _ hcol
    · rintro ⟨col, hget, hf⟩
      have hmem := alGet_mem hget
      rw [hcdict] at hmem
      obtain ⟨col', hcol', hpe⟩ := List.mem_map.mp hmem
      obtain ⟨h1, h2⟩ := Prod.mk.injEq _ _ _ _ ▸ hpe
      exact ⟨col', hcol', h1, by rw [h2]; exact hf⟩
  · intro c
    rw [hidx, alGet_isSome_iff_mem_keys]
    simp [alKeys]
  · constructor
    · rw [hidx]
      unfold alKeys
      rw [List.map_map]
      exact List.Nodup.map (fun a b h => by simpa using h) hndu'
    · intro p hp
      rw [hidx] at hp
      obtain ⟨c, -, hpe⟩ := List.mem_map.mp hp
      rw [← hpe]
      exact ⟨by simp, by simp⟩
  · intro c bs hget v i
    rw [hidx] at hget
    obtain rfl := alGet_constMap_nil hget
    rw [hrows]
    simp [inBucket, bGet, RowHoldsAt]
  · intro c _
    rw [hrows]
    exact List.Pairwise.nil

/-! ### Insert preservation -/

theorem rowGet_of_alGet {r : Row} {c : String} {vv : Option Value}
    (h : alGet strEq r c = some vv) : rowGet r c = vv := by
  unfold rowGet
  rw [h]

theorem rowGet_of_alGet_none {r : Row} {c : String}
    (h : alGet strEq r c = none) : rowGet r c = none := by
  unfold rowGet
  rw [h]

theorem validate_ok_not_indexed {t : Table} {row vr : Row}
    (hk : (alKeys t.columns).Nodup) (hCU : ColsUniqOk t)
    (h : t.validate_row row = Except.ok vr) :
    ∀ c ∈ t.unique_columns, ∀ w, rowGet vr c = some w →
      ∀ bs, alGet strEq t.indexes c = some bs → bGet bs w = none := by
  intro c hc w hw bs hbs
  obtain ⟨col, hcol, -⟩ := (hCU c).mp hc
  have hmem := alGet_mem hcol
  obtain ⟨-, hin⟩ := validate_ok_spec hk h
  obtain ⟨vv, hcc, hget⟩ := hin (c, col) hmem
  have : rowGet vr c = vv := rowGet_of_alGet hget
  rw [hw] at this
  exact (colCheck_ok hcc).2 w this.symm hc bs hbs

theorem validate_ok_no_clash {t : Table} {row vr : Row} (hwf : Wf t)
    (h : t.validate_row row = Except.ok vr) :
    ∀ c ∈ t.unique_columns, ∀ w, rowGet vr c = some w →
      ∀ j, ¬ RowHoldsAt t.rows c w j := by
  intro c hc w hw j hj
  obtain ⟨⟨hk, -⟩, hCU, hIK, -, hEx, -, -⟩ := hwf
  obtain ⟨bs, hbs⟩ := Option.isSome_iff_exists.mp ((hIK c).mpr hc)
  have hnone := validate_ok_not_indexed hk hCU h c hc w hw bs hbs
  have := (hEx c bs hbs w j).mpr hj
  obtain ⟨l, hl, -⟩ := this
  rw [hl] at hnone
  cases hnone

theorem insertS_ok_inv {t : Table} {row : Row} {t' : Table}
    (h : t.insertS row = (t', none)) :
    ∃ vr, t.validate_row row = Except.ok vr ∧
      t' = { t with rows := t.rows ++ [vr],
                    indexes := updIdx vr t.rows.length t.indexes } := by
  unfold Table.insertS at h
  cases hv : t.validate_row row with
  | error e =>
    rw [hv] at h
    exact absurd (congrArg Prod.snd h) (by simp)
  | ok vr =>
    rw [hv] at h
    obtain ⟨h1, -⟩ := Prod.mk.injEq _ _ _ _ ▸ h
    exact ⟨vr, rfl, h1.symm⟩

theorem wf_insertS {t : Table} {row : Row} {t' : Table} (hwf : Wf t)
    (h : t.insertS row = (t', none)) : Wf t' := by
  obtain ⟨vr, hval, rfl⟩ := insertS_ok_inv h
  obtain ⟨hCO, hCU, hIK, hIW, hEx, hUO, hUN⟩ := hwf
  have hnoclash := validate_ok_no_clash
    ⟨hCO, hCU, hIK, hIW, hEx, hUO, hUN⟩ hval
  set n := t.rows.length with hn
  refine ⟨hCO, hCU, ?_, ?_, ?_, ?_, hUN⟩
  · intro c
    simp only [alGet_updIdx]
    rw [← hIK c]
    cases alGet strEq t.indexes c <;> simp
  · constructor
    · simp only [alKeys_updIdx]
      exact hIW.1
    · intro p hp
      have hp' : ∃ a b, (a, b) ∈ t.indexes ∧
          (match rowGet vr a with
            | none => (a, b)
            | some v => (a, bApp b v n)) = p := by
        simpa [updIdx] using hp
      obtain ⟨a, b, hab, hpe⟩ := hp'
      have hbwf : BucketsWF b := hIW.2 (a, b) hab
      cases hv : rowGet vr a with
      | none =>
        rw [hv] at hpe
        subst hpe
        exact hbwf
      | some v =>
        rw [hv] at hpe
        subst hpe
        refine BucketsWF_bApp hbwf ?_
        intro hb
        have hget : alGet strEq t.indexes a = some b :=
          alGet_of_mem_nodup hIW.1 hab
        have := (hEx a b hget v n).mp hb
        obtain ⟨hlt, -⟩ := this
        omega
  · intro c bs' hget v j
    rw [alGet_updIdx] at hget
    cases hbs : alGet strEq t.indexes c with
    | none => rw [hbs] at hget; cases hget
    | some bs =>
      rw [hbs] at hget
      cases hv : rowGet vr c with
      | none =>
        rw [hv] at hget
        obtain rfl : bs = bs' := Option.some.inj hget
        rw [rowHoldsAt_append_singleton]
        rw [hEx c bs hbs v j]
        constructor
        · exact Or.inl
        · rintro (hh | ⟨-, w, hw, -⟩)
          · exact hh
          · rw [hv] at hw; cases hw
      | some w =>
        rw [hv] at hget
        obtain rfl : bApp bs w n = bs' := Option.some.inj hget
        rw [inBucket_bApp, rowHoldsAt_append_singleton]
        rw [hEx c bs hbs v j]
        constructor
        · rintro (hh | ⟨rfl, hpy⟩)
          · exact Or.inl hh
          · exact Or.inr ⟨rfl, w, hv, hpy⟩
        · rintro (hh | ⟨rfl, w', hw', hpy⟩)
          · exact Or.inl hh
          · rw [hv] at hw'
            obtain rfl := Option.some.inj hw'
            exact Or.inr ⟨rfl, hpy⟩
  · intro c hc
    rw [List.pairwise_append]
    refine ⟨hUO c hc, List.pairwise_singleton _ _, ?_⟩
    intro r1 hr1 r2 hr2 v w hv hw
    have hr2' : r2 = vr := by simpa using hr2
    subst hr2'
    refine pyEq_eq_false_of_not ?_
    intro hpy
    obtain ⟨j, hje⟩ := List.mem_iff_get.mp hr1
    have hvj : rowGet (t.rows.get j) c = some v := by rw [hje]; exact hv
    exact hnoclash c hc w hw j.1 ⟨j.2, v, hvj, hpy⟩

/-! ### Update preservation -/

theorem rowHoldsAt_of_get {rows : List Row} {i : Nat} {row : Row}
    (hrow : rows.get? i = some row) {c : String} {v : Value}
    (hv : rowGet row c = some v) : RowHoldsAt rows c v i := by
  obtain ⟨hi, hget⟩ := List.get?_eq_some.mp hrow
  exact ⟨hi, v, by rw [hget]; exact hv, pyEq_refl v⟩

theorem rowHoldsAt_get {rows : List Row} {c : String} {v : Value} {i : Nat}
    {row : Row} (h : RowHoldsAt rows c v i) (hrow : rows.get? i = some row) :
    ∃ w, rowGet row c = some w ∧ pyEq w v = true := by
  obtain ⟨hi, w, hw, hpy⟩ := h
  obtain ⟨hi', hget⟩ := List.get?_eq_some.mp hrow
  refine ⟨w, ?_, hpy⟩
  rw [← hget]
  exact hw

theorem remIdx_wf_spec {t : Table} {i : Nat} {row : Row}
    (hIW : IdxWF t.indexes) (hEx : IdxExact t)
    (hrow : t.rows.get? i = some row) :
    (remIdx row i t.indexes).2 = none ∧
      (∀ p ∈ (remIdx row i t.indexes).1, BucketsWF p.2) ∧
      ∀ c bs', alGet strEq (remIdx row i t.indexes).1 c = some bs' →
        ∀ v j, inBucket bs' v j ↔ (RowHoldsAt t.rows c v j ∧ j ≠ i) := by
  have hrowval : ∀ c v, rowGet row c = some v → RowHoldsAt t.rows c v i :=
    fun c v hv => rowHoldsAt_of_get hrow hv
  have hok : (remIdx row i t.indexes).2 = none := by
    refine remIdx_ok_of ?_
    intro p hp v hv
    refine bRemove_ok ?_
    intro l hl
    have hget : alGet strEq t.indexes p.1 = some p.2 :=
      alGet_of_mem_nodup hIW.1 hp
    obtain ⟨l', hl', hmem⟩ := (hEx p.1 p.2 hget v i).mpr (hrowval p.1 v hv)
    rw [hl] at hl'
    obtain rfl := Option.some.inj hl'
    exact hmem
  refine ⟨hok, ?_, ?_⟩
  · intro p hp
    have hget : alGet strEq (remIdx row i t.indexes).1 p.1 = some p.2 := by
      refine alGet_of_mem_nodup ?_ hp
      rw [remIdx_fst_keys]
      exact hIW.1
    have hpre : (alGet strEq t.indexes p.1).isSome := by
      rw [alGet_isSome_iff_mem_keys, ← remIdx_fst_keys row i]
      rw [← alGet_isSome_iff_mem_keys, hget]
      rfl
    obtain ⟨bs, hbs⟩ := Option.isSome_iff_exists.mp hpre
    obtain ⟨bs', hbs', hchar⟩ := remIdx_ok_get hok p.1 bs hbs
    rw [hget] at hbs'
    obtain rfl : p.2 = bs' := Option.some.inj hbs'
    have hbwf : BucketsWF bs := hIW.2 _ (alGet_mem hbs)
    rcases hchar with ⟨-, rfl⟩ | ⟨v, -, hrem⟩
    · exact hbwf
    · exact BucketsWF_bRemove hbwf hrem
  · intro c bs' hget v j
    have hpre : (alGet strEq t.indexes c).isSome := by
      rw [alGet_isSome_iff_mem_keys, ← remIdx_fst_keys row i]
      rw [← alGet_isSome_iff_mem_keys, hget]
      rfl
    obtain ⟨bs, hbs⟩ := Option.isSome_iff_exists.mp hpre
    obtain ⟨bs'', hbs'', hchar⟩ := remIdx_ok_get hok c bs hbs
    have heqb : bs'' = bs' := by
      rw [hget] at hbs''
      exact (Option.some.inj hbs'').symm
    subst heqb
    have hbwf : BucketsWF bs := hIW.2 _ (alGet_mem hbs)
    rcases hchar with ⟨hnone, heq⟩ | ⟨v0, hv0, hrem⟩
    · rw [heq]
      rw [hEx c bs hbs v j]
      constructor
      · intro hh
        refine ⟨hh, ?_⟩
        rintro rfl
        obtain ⟨w, hw, -⟩ := rowHoldsAt_get hh hrow
        rw [hnone] at hw
        cases hw
      · exact And.left
    · rw [inBucket_bRemove hbwf.1 (fun p hp => (hbwf.2 p hp).2) hrem v j]
      rw [hEx c bs hbs v j]
      constructor
      · rintro ⟨hh, hni⟩
        refine ⟨hh, ?_⟩
        rintro rfl
        obtain ⟨w, hw, hpy⟩ := rowHoldsAt_get hh hrow
        rw [hv0] at hw
        obtain rfl := Option.some.inj hw
        exact hni ⟨rfl, hpy⟩
      · rintro ⟨hh, hji⟩
        exact ⟨hh, fun hc => hji hc.1⟩

theorem wf_updateStep {t : Table} {i : Nat} {row vr : Row} {sv : Filter}
    (hwf : Wf t) (hrow : t.rows.get? i = some row)
    (hval : ({ t with indexes := (remIdx row i t.indexes).1 } :
      Table).validate_row (rowMerge row sv) = Except.ok vr) :
    Wf { t with rows := t.rows.set i vr,
                indexes := updIdx vr i (remIdx row i t.indexes).1 } := by
  obtain ⟨hCO, hCU, hIK, hIW, hEx, hUO, hUN⟩ := hwf
  obtain ⟨-, hstruct, hchar⟩ := remIdx_wf_spec hIW hEx hrow
  have hi : i < t.rows.length := (List.get?_eq_some.mp hrow).1
  have hkeys1 : alKeys (remIdx row i t.indexes).1 = alKeys t.indexes :=
    remIdx_fst_keys row i t.indexes
  have hnd1 : (alKeys (remIdx row i t.indexes).1).Nodup := by
    rw [hkeys1]; exact hIW.1
  have t1CU : ColsUniqOk ({ t with indexes := (remIdx row i t.indexes).1 } : Table) := hCU
  have t1k : (alKeys ({ t with indexes := (remIdx row i t.indexes).1 } : Table).columns).Nodup := hCO.1
  have hnotidx := validate_ok_not_indexed t1k t1CU hval
  have hnoclash : ∀ c ∈ t.unique_columns, ∀ w, rowGet vr c = some w →
      ∀ j, j ≠ i → ¬ RowHoldsAt t.rows c w j := by
    intro c hc w hw j hji hhold
    have hsome : (alGet strEq (remIdx row i t.indexes).1 c).isSome := by
      rw [alGet_isSome_iff_mem_keys, hkeys1, ← alGet_isSome_iff_mem_keys]
      exact (hIK c).mpr hc
    obtain ⟨bs1, hbs1⟩ := Option.isSome_iff_exists.mp hsome
    obtain ⟨l, hl, -⟩ := (hchar c bs1 hbs1 w j).mpr ⟨hhold, hji⟩
    have := hnotidx c hc w hw bs1 hbs1
    rw [hl] at this
    cases this
  refine ⟨hCO, hCU, ?_, ?_, ?_, ?_, hUN⟩
  · intro c
    show (alGet strEq (updIdx vr i (remIdx row i t.indexes).1) c).isSome ↔
      c ∈ t.unique_columns
    rw [alGet_isSome_iff_mem_keys, alKeys_updIdx, hkeys1]
    rw [← alGet_isSome_iff_mem_keys]
    exact hIK c
  · constructor
    · show (alKeys (updIdx vr i (remIdx row i t.indexes).1)).Nodup
      rw [alKeys_updIdx]
      exact hnd1
    · intro p hp
      have hp' : ∃ a b, (a, b) ∈ (remIdx row i t.indexes).1 ∧
          (match rowGet vr a with
            | none => (a, b)
            | some v => (a, bApp b v i)) = p := by
        simpa [updIdx] using hp
      obtain ⟨a, b, hab, hpe⟩ := hp'
      have hbwf : BucketsWF b := hstruct (a, b) hab
      cases hv : rowGet vr a with
      | none =>
        rw [hv] at hpe
        subst hpe
        exact hbwf
      | some v =>
        rw [hv] at hpe
        subst hpe
        refine BucketsWF_bApp hbwf ?_
        intro hb
        have hget : alGet strEq (remIdx row i t.indexes).1 a = some b :=
          alGet_of_mem_nodup hnd1 hab
        exact ((hchar a b hget v i).mp hb).2 rfl
  · intro c bs' hget v j
    have hget' : alGet strEq (updIdx vr i (remIdx row i t.indexes).1) c = some bs' := hget
    show inBucket bs' v j ↔ RowHoldsAt (t.rows.set i vr) c v j
    rw [alGet_updIdx] at hget'
    cases hbs : alGet strEq (remIdx row i t.indexes).1 c with
    | none => rw [hbs] at hget'; cases hget'
    | some bs1 =>
      rw [hbs] at hget'
      cases hv : rowGet vr c with
      | none =>
        rw [hv] at hget'
        obtain rfl : bs1 = bs' := Option.some.inj hget'
        rw [hchar c bs1 hbs v j]
        by_cases hji : j = i
        · subst hji
          simp only [ne_eq, not_true_eq_false, and_false, false_iff]
          rw [rowHoldsAt_set_self hi]
          rintro ⟨w, hw, -⟩
          rw [hv] at hw
          cases hw
        · rw [rowHoldsAt_set_ne hji]
          simp [hji]
      | some w =>
        rw [hv] at hget'
        obtain rfl : bApp bs1 w i = bs' := Option.some.inj hget'
        rw [inBucket_bApp]
        rw [hchar c bs1 hbs v j]
        by_cases hji : j = i
        · subst hji
          rw [rowHoldsAt_set_self hi]
          constructor
          · rintro (⟨-, hne⟩ | ⟨-, hpy⟩)
            · exact absurd rfl hne
            · exact ⟨w, hv, hpy⟩
          · rintro ⟨w', hw', hpy⟩
            rw [hv] at hw'
            obtain rfl := Option.some.inj hw'
            exact Or.inr ⟨rfl, hpy⟩
        · rw [rowHoldsAt_set_ne hji]
          simp [hji]
  · intro c hc
    show (t.rows.set i vr).Pairwise (fun r1 r2 =>
      ∀ v w, rowGet r1 c = some v → rowGet r2 c = some w → pyEq v w = false)
    have hc' : c ∈ t.unique_columns := hc
    rw [List.pairwise_iff_get]
    intro a b hab
    have ha : a.1 < t.rows.length := by
      have := a.2; simpa using this
    have hb : b.1 < t.rows.length := by
      have := b.2; simpa using this
    have hgetset : ∀ (k : Fin (t.rows.set i vr).length),
        (t.rows.set i vr).get k =
          if k.1 = i then vr
          else t.rows.get ⟨k.1, by have := k.2; simpa using this⟩ := by
      intro k
      by_cases hk : k.1 = i
      · rw [if_pos hk]
        rw [List.get_eq_getElem, List.getElem_set]
        simp [hk]
      · rw [if_neg hk]
        rw [List.get_eq_getElem, List.getElem_set]
        have hik : ¬ i = k.1 := fun hik => hk hik.symm
        simp [hik]
    intro v w hv hw
    rw [hgetset a] at hv
    rw [hgetset b] at hw
    by_cases hai : a.1 = i <;> by_cases hbi : b.1 = i
    · omega
    · rw [if_pos hai] at hv
      rw [if_neg hbi] at hw
      refine pyEq_eq_false_of_not ?_
      intro hpy
      refine hnoclash c hc' v hv b.1 hbi ⟨hb, w, hw, pyEq_symm hpy⟩
    · rw [if_neg hai] at hv
      rw [if_pos hbi] at hw
      refine pyEq_eq_false_of_not ?_
      intro hpy
      refine hnoclash c hc' w hw a.1 hai ⟨ha, v, hv, hpy⟩
    · rw [if_neg hai] at hv
      rw [if_neg hbi] at hw
      have hpw := hUO c hc'
      rw [List.pairwise_iff_get] at hpw
      exact hpw ⟨a.1, ha⟩ ⟨b.1, hb⟩ (by simpa using hab) v w hv hw

theorem updateGo_succ (sv : Filter) (w : Option Filter) (fuel : Nat)
    (t : Table) (i cnt : Nat) :
    updateGo sv w (fuel + 1) t i cnt =
      match t.rows.get? i with
      | none => (t, Except.ok cnt)
      | some row =>
        match t.matchesB row w with
        | Except.error e => (t, Except.error e)
        | Except.ok false => updateGo sv w fuel t (i + 1) cnt
        | Except.ok true =>
          match (remIdx row i t.indexes).2 with
          | some e =>
            ({ t with indexes := (remIdx row i t.indexes).1 }, Except.error e)
          | none =>
            match ({ t with indexes := (remIdx row i t.indexes).1 } :
                Table).validate_row (rowMerge row sv) with
            | Except.error e =>
              ({ t with indexes := (remIdx row i t.indexes).1 }, Except.error e)
            | Except.ok vr =>
              updateGo sv w fuel
                { t with rows := t.rows.set i vr,
                         indexes := updIdx vr i (remIdx row i t.indexes).1 }
                (i + 1) (cnt + 1) := rfl

theorem updateGo_wf (sv : Filter) (w : Option Filter) :
    ∀ (fuel : Nat) (t : Table) (i cnt : Nat) (t' : Table) (n : Nat),
      Wf t → updateGo sv w fuel t i cnt = (t', Except.ok n) → Wf t' := by
  intro fuel
  induction fuel with
  | zero =>
    intro t i cnt t' n hwf h
    have h1 : t = t' := congrArg Prod.fst h
    exact h1 ▸ hwf
  | succ fuel ih =>
    intro t i cnt t' n hwf h
    rw [updateGo_succ] at h
    split at h
    · have h1 : t = t' := congrArg Prod.fst h
      exact h1 ▸ hwf
    · next row hrow =>
      split at h
      · exact absurd (congrArg Prod.snd h) (by simp)
      · exact ih t (i + 1) cnt t' n hwf h
      · split at h
        · exact absurd (congrArg Prod.snd h) (by simp)
        · split at h
          · exact absurd (congrArg Prod.snd h) (by simp)
          · next vr hval =>
            exact ih _ (i + 1) (cnt + 1) t' n (wf_updateStep hwf hrow hval) h

theorem wf_updateS {t : Table} {sv : Filter} {w : Option Filter} {t' : Table}
    {n : Nat} (hwf : Wf t) (h : t.updateS sv w = (t', Except.ok n)) : Wf t' :=
  updateGo_wf sv w t.rows.length t 0 0 t' n hwf h

theorem delRemovePass_cons (t : Table) (i : Nat) (rest : List Nat) :
    delRemovePass t (i :: rest) =
      match t.rows.get? i with
      | none => (t, some "list index out of range")
      | some row =>
        match (remIdx row i t.indexes).2 with
        | some e => ({ t with indexes := (remIdx row i t.indexes).1 }, some e)
        | none =>
          delRemovePass
            { t with indexes := (remIdx row i t.indexes).1,
                     rows := t.rows.eraseIdx i } rest := rfl

theorem delRemovePass_none_spec :
    ∀ (idxs : List Nat) (t t' : Table), delRemovePass t idxs = (t', none) →
      t'.name = t.name ∧ t'.columns = t.columns ∧
      t'.column_order = t.column_order ∧ t'.primary_key = t.primary_key ∧
      t'.unique_columns = t.unique_columns ∧
      alKeys t'.indexes = alKeys t.indexes ∧ t'.rows.Sublist t.rows := by
  intro idxs
  induction idxs with
  | nil =>
    intro t t' h
    have h1 : t = t' := congrArg Prod.fst h
    subst h1
    exact ⟨rfl, rfl, rfl, rfl, rfl, rfl, List.Sublist.refl _⟩
  | cons i rest ih =>
    intro t t' h
    rw [delRemovePass_cons] at h
    split at h
    · exact absurd (congrArg Prod.snd h) (by simp)
    · next row hrow =>
      split at h
      · exact absurd (congrArg Prod.snd h) (by simp)
      · have hspec := ih _ _ h
        refine ⟨hspec.1, hspec.2.1, hspec.2.2.1, hspec.2.2.2.1,
          hspec.2.2.2.2.1, ?_, ?_⟩
        · rw [hspec.2.2.2.2.2.1]
          exact remIdx_fst_keys row i t.indexes
        · exact hspec.2.2.2.2.2.2.trans (List.eraseIdx_sublist _ i)

theorem wf_deleteS {t : Table} {w : Option Filter} {t' : Table} {n : Nat}
    (hwf : Wf t) (h : t.deleteS w = (t', Except.ok n)) : Wf t' := by
  obtain ⟨hCO, hCU, hIK, hIW, hEx, hUO, hUN⟩ := hwf
  unfold Table.deleteS at h
  split at h
  · exact absurd (congrArg Prod.snd h) (by simp)
  · next idxs hfold =>
    split at h
    · exact absurd (congrArg Prod.snd h) (by simp)
    · next t1 hpass =>
      have ht' : t1.rebuild_indexes = t' := congrArg Prod.fst h
      obtain ⟨hname, hcols, hord, hpk, huc, hkeys, hsub⟩ :=
        delRemovePass_none_spec idxs.reverse t t1 hpass
      subst ht'
      refine ⟨?_, ?_, ?_, ?_, rebuild_exact t1, ?_, ?_⟩
      · show ColsOk t1
        unfold ColsOk
        rw [hcols]
        exact hCO
      · show ColsUniqOk t1
        unfold ColsUniqOk
        rw [huc, hcols]
        exact hCU
      · intro c
        have e1 : alKeys (t1.rebuild_indexes).indexes = alKeys t.indexes := by
          rw [rebuild_keys]
          exact hkeys
        rw [alGet_isSome_iff_mem_keys, e1, ← alGet_isSome_iff_mem_keys]
        rw [show (t1.rebuild_indexes).unique_columns = t1.unique_columns from
          rfl, huc]
        exact hIK c
      · refine rebuild_struct t1 ?_
        rw [hkeys]
        exact hIW.1
      · intro c hc
        have hc' : c ∈ t.unique_columns := by
          rw [show (t1.rebuild_indexes).unique_columns = t1.unique_columns from
            rfl, huc] at hc
          exact hc
        exact List.Pairwise.sublist hsub (hUO c hc')
      · show t1.unique_columns.Nodup
        rw [huc]
        exact hUN

theorem mem_foldl_setAdd :
    ∀ (l : List String) (acc : List String) (x : String),
      x ∈ l.foldl setAdd acc ↔ x ∈ acc ∨ x ∈ l := by
  intro l
  induction l with
  | nil => intro acc x; simp
  | cons c rest ih =>
    intro acc x
    rw [List.foldl_cons, ih]
    rw [mem_setAdd]
    constructor
    · rintro ((h | h) | h)
      · exact Or.inl h
      · exact Or.inr (by simp [h])
      · exact Or.inr (by simp [h])
    · rintro (h | h)
      · exact Or.inl (Or.inl h)
      · rcases List.mem_cons.mp h with h | h
        · exact Or.inl (Or.inr h)
        · exact Or.inr h

theorem mem_pySetOfList {l : List String} {x : String} :
    x ∈ pySetOfList l ↔ x ∈ l := by
  unfold pySetOfList
  rw [mem_foldl_setAdd]
  simp

theorem nodup_foldl_setAdd :
    ∀ (l : List String) (acc : List String), acc.Nodup →
      (l.foldl setAdd acc).Nodup := by
  intro l
  induction l with
  | nil => intro acc h; simpa using h
  | cons c rest ih =>
    intro acc h
    rw [List.foldl_cons]
    exact ih _ (nodup_setAdd h)

theorem nodup_pySetOfList (l : List String) : (pySetOfList l).Nodup :=
  nodup_foldl_setAdd l [] (by simp)

theorem pyUpper_of_supported {dt : String} (h : dt ∈ supportedTypes) :
    pyUpper dt = dt := by
  rcases (by simpa [supportedTypes] using h :
      dt = "INT" ∨ dt = "TEXT" ∨ dt = "VARCHAR" ∨ dt = "REAL" ∨
        dt = "BOOLEAN") with rfl | rfl | rfl | rfl | rfl <;> decide

theorem column_from_dict_self {c : Column}
    (hdt : c.data_type ∈ supportedTypes)
    (hpk : c.primary_key = true → c.nullable = false) :
    Column.from_dict c = Except.ok c := by
  obtain ⟨n, dt, pk, uq, nb⟩ := c
  have hdt' : dt ∈ supportedTypes := hdt
  have h1 : pyUpper dt = dt := pyUpper_of_supported hdt'
  have h2 : supportedTypes.contains dt = true := by simpa using hdt'
  show Column.make n dt pk uq nb = Except.ok (Column.mk n dt pk uq nb)
  unfold Column.make
  simp only [h1, h2]
  cases pk
  · simp
  · have hnb : nb = false := hpk rfl
    subst hnb
    simp

theorem mapM_from_dict_id :
    ∀ (l : List Column), (∀ c ∈ l, Column.from_dict c = Except.ok c) →
      l.mapM Column.from_dict = Except.ok l := by
  intro l
  induction l with
  | nil => intro _; rfl
  | cons c rest ih =>
    intro h
    rw [List.mapM_cons, h c (by simp), ih (fun c' hc' => h c' (by simp [hc']))]
    rfl

theorem map_name_pair_eq :
    ∀ {l : List (String × Column)}, (∀ p ∈ l, p.1 = p.2.name) →
      l.map (fun p => (p.2.name, p.2)) = l := by
  intro l
  induction l with
  | nil => intro _; rfl
  | cons p rest ih =>
    intro h
    rw [List.map_cons, ih (fun q hq => h q (by simp [hq]))]
    have hp : p.2.name = p.1 := (h p (by simp)).symm
    rw [hp]

theorem wf_mid_rebuild {tm : Table} {t : Table}
    (hcols : tm.columns = t.columns)
    (hrows : tm.rows = t.rows)
    (huc : ∀ x, x ∈ tm.unique_columns ↔ x ∈ t.unique_columns)
    (hucnd : tm.unique_columns.Nodup)
    (hkeysm : ∀ x, x ∈ alKeys tm.indexes ↔ x ∈ tm.unique_columns)
    (hkeysnd : (alKeys tm.indexes).Nodup)
    (hwf : Wf t) : Wf tm.rebuild_indexes := by
  obtain ⟨hCO, hCU, hIK, hIW, hEx, hUO, hUN⟩ := hwf
  refine ⟨?_, ?_, ?_, rebuild_struct tm hkeysnd, rebuild_exact tm, ?_, ?_⟩
  · show ColsOk tm
    unfold ColsOk
    rw [hcols]
    exact hCO
  · intro c
    show c ∈ tm.unique_columns ↔ ∃ col, alGet strEq tm.columns c = some col ∧
      (col.primary_key = true ∨ col.unique = true)
    rw [huc c, hcols]
    exact hCU c
  · intro c
    rw [alGet_isSome_iff_mem_keys, rebuild_keys]
    exact hkeysm c
  · intro c hc
    have hc' : c ∈ t.unique_columns := by
      rw [show (tm.rebuild_indexes).unique_columns = tm.unique_columns from rfl,
        huc c] at hc
      exact hc
    show tm.rows.Pairwise _
    rw [hrows]
    exact hUO c hc'
  · show tm.unique_columns.Nodup
    exact hucnd

theorem wf_reload {t t' : Table} (hwf : Wf t)
    (h : Table.from_dict (Table.to_dict t) = Except.ok t') : Wf t' := by
  obtain ⟨hCO, hCU, hIK, hIW, hEx, hUO, hUN⟩ := hwf
  have hok : ∀ c ∈ t.columns.map (·.2), Column.from_dict c = Except.ok c := by
    intro c hc
    obtain ⟨p, hp, hpe⟩ := List.mem_map.mp hc
    obtain ⟨-, hdt, hpk⟩ := hCO.2 p hp
    rw [← hpe]
    exact column_from_dict_self hdt hpk
  have hmapM : (Table.to_dict t).columns.mapM Column.from_dict =
      Except.ok (t.columns.map (·.2)) := mapM_from_dict_id _ hok
  unfold Table.from_dict at h
  rw [hmapM] at h
  simp only [bind, Except.bind] at h
  split at h
  · simp at h
  · next t0 hmk =>
    have h2 : ({ t0 with rows := t.rows, column_order := t.column_order, primary_key := t.primary_key, unique_columns := pySetOfList t.unique_columns } : Table).rebuild_indexes = t' := Except.ok.inj h
    obtain ⟨-, hcdict, -, -, hidx, pk, hfold, -⟩ := make_ok_spec hmk
    have hnames : (t.columns.map (·.2)).map Column.name = alKeys t.columns := by
      rw [List.map_map]
      unfold alKeys
      exact List.map_congr_left (fun p hp => ((hCO.2 p hp).1).symm)
    have hndnames : ((t.columns.map (·.2)).map Column.name).Nodup := by
      rw [hnames]
      exact hCO.1
    have hcols_eq : t0.columns = t.columns := by
      rw [hcdict, buildColumns_eq _ [] (by simp [alGet]) hndnames]
      simp only [List.nil_append]
      rw [List.map_map]
      exact map_name_pair_eq (fun p hp => (hCO.2 p hp).1)
    have hmemu : ∀ x, x ∈ t0.unique_columns ↔ x ∈ t.unique_columns := by
      intro x
      obtain ⟨hm, -⟩ := mkUniqFold_spec _ _ _ hfold
      rw [hm x]
      simp only [List.not_mem_nil, false_or]
      constructor
      · rintro ⟨col, hcol, hname, hflag⟩
        obtain ⟨p, hp, hpe⟩ := List.mem_map.mp hcol
        rw [hCU x]
        have hp1 : p.1 = x := by rw [(hCO.2 p hp).1, hpe, hname]
        have hmem : (x, col) ∈ t.columns := by
          rw [← hp1, ← hpe]
          exact hp
        exact ⟨col, alGet_of_mem_nodup hCO.1 hmem, hflag⟩
      · intro hx
        rw [hCU x] at hx
        obtain ⟨col, hget, hflag⟩ := hx
        have hmem := alGet_mem hget
        refine ⟨col, List.mem_map.mpr ⟨(x, col), hmem, rfl⟩, ?_, hflag⟩
        exact ((hCO.2 (x, col) hmem).1).symm
    have hndu : t0.unique_columns.Nodup :=
      (mkUniqFold_spec _ _ _ hfold).2 (by simp)
    have e1 : alKeys t0.indexes = t0.unique_columns := by
      rw [hidx]
      unfold alKeys
      rw [List.map_map]
      exact List.map_id _
    rw [← h2]
    refine @wf_mid_rebuild _ t ?_ rfl ?_ ?_ ?_ ?_
      ⟨hCO, hCU, hIK, hIW, hEx, hUO, hUN⟩
    · exact hcols_eq
    · intro x
      show x ∈ pySetOfList t.unique_columns ↔ x ∈ t.unique_columns
      exact mem_pySetOfList
    · exact nodup_pySetOfList _
    · intro x
      show x ∈ alKeys t0.indexes ↔ x ∈ pySetOfList t.unique_columns
      rw [e1, mem_pySetOfList]
      exact hmemu x
    · show (alKeys t0.indexes).Nodup
      rw [e1]
      exact hndu

theorem matchesGo_total (t : Table) (row : Row) :
    ∀ conds : Filter, (∀ p ∈ conds, alHasKey strEq t.columns p.1 = true) →
      ∃ b, matchesGo t row conds = Except.ok b := by
  intro conds
  induction conds with
  | nil => intro _; exact ⟨true, rfl⟩
  | cons p rest ih =>
    intro h
    obtain ⟨c, ev⟩ := p
    have hc : alHasKey strEq t.columns c = true := h (c, ev) (by simp)
    by_cases hpy : pyEqOpt (rowGet row c) ev
    · obtain ⟨b, hb⟩ := ih (fun q hq => h q (by simp [hq]))
      exact ⟨b, by simp [matchesGo, hc, hpy, hb]⟩
    · exact ⟨false, by simp [matchesGo, hc, hpy]⟩

theorem matchesB_total {t : Table} {w : Option Filter}
    (h : ∀ p ∈ w.getD [], alHasKey strEq t.columns p.1 = true) (row : Row) :
    ∃ b, t.matchesB row w = Except.ok b := by
  cases w with
  | none => exact ⟨true, rfl⟩
  | some conds => exact matchesGo_total t row conds (by simpa using h)

theorem matchesGo_congr {t t' : Table} (hcols : t.columns = t'.columns)
    (row : Row) : ∀ conds, matchesGo t row conds = matchesGo t' row conds := by
  intro conds
  induction conds with
  | nil => rfl
  | cons p rest ih =>
    obtain ⟨c, ev⟩ := p
    unfold matchesGo
    rw [hcols, ih]

theorem matchesB_congr {t t' : Table} (hcols : t.columns = t'.columns)
    (row : Row) (w : Option Filter) : t.matchesB row w = t'.matchesB row w := by
  cases w with
  | none => rfl
  | some conds => exact matchesGo_congr hcols row conds

theorem coerceRow_congr {t t' : Table} (hcols : t.columns = t'.columns)
    (row : Row) : coerceRow t row = coerceRow t' row := by
  unfold coerceRow
  rw [hcols]

theorem updateGo_err_spec (sv : Filter) (w : Option Filter) :
    ∀ (fuel : Nat) (tc : Table) (i cnt : Nat) (t' : Table) (e : String),
      Wf tc →
      (∀ p ∈ w.getD [], alHasKey strEq tc.columns p.1 = true) →
      updateGo sv w fuel tc i cnt = (t', Except.error e) →
      ∃ k row, i ≤ k ∧ tc.rows.get? k = some row ∧
        tc.matchesB row w = Except.ok true ∧
        t'.rows.length = tc.rows.length ∧
        (∀ j, k ≤ j → t'.rows.get? j = tc.rows.get? j) ∧
        (∀ j, j < i → t'.rows.get? j = tc.rows.get? j) ∧
        (∀ j rj, i ≤ j → j < k → tc.rows.get? j = some rj →
          (tc.matchesB rj w = Except.ok true →
            ∃ vr, coerceRow tc (rowMerge rj sv) = Except.ok vr ∧
              t'.rows.get? j = some vr) ∧
          (tc.matchesB rj w = Except.ok false → t'.rows.get? j = some rj)) ∧
        (∀ c v, rowGet row c = some v → ¬ InIdx t'.indexes c v k) := by
  intro fuel
  induction fuel with
  | zero =>
    intro tc i cnt t' e _ _ h
    have h2 : Except.ok cnt = (Except.error e : Except String Nat) :=
      congrArg Prod.snd h
    cases h2
  | succ fuel ih =>
    intro tc i cnt t' e hwf hdecl h
    rw [updateGo_succ] at h
    split at h
    · exact absurd (congrArg Prod.snd h) (by simp)
    · next rowi hrow =>
      split at h
      · next e0 hm =>
        obtain ⟨b, hb⟩ := matchesB_total hdecl rowi
        rw [hm] at hb
        cases hb
      · next hm =>
        obtain ⟨k, row, hk1, hk2, hk3, hlen, hge, hlt, hmid, hrem⟩ :=
          ih tc (i + 1) cnt t' e hwf hdecl h
        refine ⟨k, row, by omega, hk2, hk3, hlen, hge, ?_, ?_, hrem⟩
        · intro j hj
          exact hlt j (by omega)
        · intro j rj hij hjk hrj
          rcases Nat.lt_or_ge j (i + 1) with hji | hji
          · have hj : j = i := by omega
            subst hj
            rw [hrow] at hrj
            obtain rfl := Option.some.inj hrj
            constructor
            · intro htrue
              rw [hm] at htrue
              cases htrue
            · intro _
              rw [hlt j (by omega)]
              exact hrow
          · exact hmid j rj hji hjk hrj
      · next hm =>
        split at h
        · next e0 heq =>
          have hnone := (remIdx_wf_spec hwf.2.2.2.1 hwf.2.2.2.2.1 hrow).1
          rw [heq] at hnone
          cases hnone
        · next heqrem =>
          split at h
          · next e0 hval =>
            have h1 : ({ tc with indexes := (remIdx rowi i tc.indexes).1 } :
                Table) = t' := congrArg Prod.fst h
            refine ⟨i, rowi, le_refl i, hrow, hm, ?_, ?_, ?_, ?_, ?_⟩
            · rw [← h1]
            · intro j _
              rw [← h1]
            · intro j _
              rw [← h1]
            · intro j rj hij hjk
              omega
            · intro c v hv
              rintro ⟨bs, hbs, hin⟩
              rw [← h1] at hbs
              have hchar := (remIdx_wf_spec hwf.2.2.2.1 hwf.2.2.2.2.1
                hrow).2.2 c bs hbs v i
              exact (hchar.mp hin).2 rfl
          · next vr hval =>
            have hwf3 := wf_updateStep hwf hrow hval
            have hi : i < tc.rows.length := (List.get?_eq_some.mp hrow).1
            obtain ⟨k, row, hk1, hk2, hk3, hlen, hge, hlt, hmid, hrem⟩ :=
              ih _ (i + 1) (cnt + 1) t' e hwf3 hdecl h
            have hset_ne : ∀ j, j ≠ i →
                (tc.rows.set i vr).get? j = tc.rows.get? j := by
              intro j hj
              exact List.get?_set_ne vr tc.rows (fun hh => hj hh.symm)
            have hmB : ∀ r, ({ tc with rows := tc.rows.set i vr, indexes := updIdx vr i (remIdx rowi i tc.indexes).1 } : Table).matchesB r w = tc.matchesB r w :=
              fun r => @matchesB_congr { tc with rows := tc.rows.set i vr, indexes := updIdx vr i (remIdx rowi i tc.indexes).1 } tc rfl r w
            have hcoB : ∀ r, coerceRow tc r = coerceRow { tc with rows := tc.rows.set i vr, indexes := updIdx vr i (remIdx rowi i tc.indexes).1 } r :=
              fun r => @coerceRow_congr tc { tc with rows := tc.rows.set i vr, indexes := updIdx vr i (remIdx rowi i tc.indexes).1 } rfl r
            have hco1 : ∀ r, coerceRow tc r = coerceRow { tc with indexes := (remIdx rowi i tc.indexes).1 } r :=
              fun r => @coerceRow_congr tc { tc with indexes := (remIdx rowi i tc.indexes).1 } rfl r
            refine ⟨k, row, by omega, ?_, ?_, ?_, ?_, ?_, ?_, hrem⟩
            · rw [← hset_ne k (by omega)]
              exact hk2
            · rw [← hmB row]
              exact hk3
            · rw [hlen]
              simp
            · intro j hj
              rw [hge j hj]
              exact hset_ne j (by omega)
            · intro j hj
              rw [hlt j (by omega)]
              exact hset_ne j (by omega)
            · intro j rj hij hjk hrj
              rcases Nat.lt_or_ge j (i + 1) with hji | hji
              · have hj : j = i := by omega
                subst hj
                rw [hrow] at hrj
                obtain rfl := Option.some.inj hrj
                constructor
                · intro _
                  refine ⟨vr, ?_, ?_⟩
                  · rw [hco1 (rowMerge rowi sv)]
                    exact coerce_of_validate hval
                  · rw [hlt j (by omega), List.get?_set_eq, hrow]
                    rfl
                · intro hfalse
                  rw [hm] at hfalse
                  cases hfalse
              · have hrj3 : (tc.rows.set i vr).get? j = some rj := by
                  rw [hset_ne j (by omega)]
                  exact hrj
                have hres := hmid j rj hji hjk hrj3
                constructor
                · intro htrue
                  obtain ⟨vrj, hco, hget⟩ := hres.1 (by rw [hmB rj]; exact htrue)
                  refine ⟨vrj, ?_, hget⟩
                  rw [hcoB (rowMerge rj sv)]
                  exact hco
                · intro hfalse
                  exact hres.2 (by rw [hmB rj]; exact hfalse)

theorem wf_of_reachableD {t : Table} (h : ReachableD t) : Wf t := by
  induction h with
  | create name cols t hnd hcols hmk => exact wf_make hnd hcols hmk
  | reload t t' _ hfd ih => exact wf_reload ih hfd
  | ins t row t' _ hins ih => exact wf_insertS ih hins
  | upd t sv w t' n _ hupd ih => exact wf_updateS ih hupd
  | del t w t' n _ hdel ih => exact wf_deleteS ih hdel

theorem reachable_usersT0 : ReachableD usersT0 :=
  ReachableD.create "users"
    [⟨"id", "INT", true, false, false⟩, ⟨"name", "TEXT", false, false, true⟩]
    usersT0 (by decide)
    (by
      intro col hcol
      rcases List.mem_cons.mp hcol with rfl | hcol2
      · exact ⟨"id", "INT", true, false, true, rfl⟩
      · rcases List.mem_cons.mp hcol2 with rfl | h
        · exact ⟨"name", "TEXT", false, false, true, rfl⟩
        · exact absurd h (List.not_mem_nil col))
    rfl

theorem reachable_usersT1 : ReachableD usersT1 :=
  ReachableD.ins usersT0
    [("id", some (Value.vint 1)), ("name", some (Value.vtext "Alice"))]
    usersT1 reachable_usersT0 rfl

theorem reachable_usersT2 : ReachableD usersT2 :=
  ReachableD.ins usersT1
    [("id", some (Value.vint 2)), ("name", some (Value.vtext "Bob"))]
    usersT2 reachable_usersT1 rfl

theorem joinFoldInner_eq (cond : Option JoinCond) (lname rname : String)
    (l : Row) :
    ∀ (rrows : List Row) (acc : List Row),
      rrows.foldl (fun acc r =>
          if evalJoinCondition l r cond then
            acc ++ [combineJoinRow lname l rname r]
          else acc) acc =
        acc ++ (rrows.filter (fun r => evalJoinCondition l r cond)).map
          (fun r => combineJoinRow lname l rname r) := by
  intro rrows
  induction rrows with
  | nil => intro acc; simp
  | cons r rest ih =>
    intro acc
    rw [List.foldl_cons]
    by_cases hc : evalJoinCondition l r cond
    · rw [if_pos hc, ih]
      simp [List.filter_cons, hc]
    · rw [if_neg hc, ih]
      simp [List.filter_cons, hc]

theorem joinFold_eq (cond : Option JoinCond) (lname rname : String) :
    ∀ (lrows rrows : List Row) (acc : List Row),
      lrows.foldl (fun acc l =>
          rrows.foldl (fun acc r =>
            if evalJoinCondition l r cond then
              acc ++ [combineJoinRow lname l rname r]
            else acc) acc) acc =
        acc ++ ((lrows.product rrows).filter
            (fun p => evalJoinCondition p.1 p.2 cond)).map
          (fun p => combineJoinRow lname p.1 rname p.2) := by
  intro lrows
  induction lrows with
  | nil =>
    intro rrows acc
    rw [show List.product ([] : List Row) rrows = [] from rfl]
    simp
  | cons l ls ih =>
    intro rrows acc
    rw [List.foldl_cons, joinFoldInner_eq, ih]
    rw [show List.product (l :: ls) rrows =
      rrows.map (fun b => (l, b)) ++ List.product ls rrows from rfl]
    rw [List.filter_append, List.map_append, List.append_assoc]
    congr 1
    congr 1
    rw [List.filter_map, List.map_map]
    rfl

/-! ## The claims -/

/-- C1 (amended): on every table reachable by the engine's own operations
from a creation whose declared column names are pairwise distinct —
freshly created, reloaded from its serialized form, or mutated by any
successful insert, update or delete — no two live rows hold Python-equal
non-absent values in a unique-constrained column, and every equality index
maps each value to exactly the positions of the rows currently holding it.
The distinct-names hypothesis is necessary: see the counterexample. -/
theorem claim1_unique_index_invariant_of_reachable {t : Table}
    (h : ReachableD t) : UniqueOk t ∧ IdxExact t :=
  ⟨(wf_of_reachableD h).2.2.2.2.2.1, (wf_of_reachableD h).2.2.2.2.1⟩

/-- C1's witness: the Scenario A table is reachable, so the invariant
holds on it. -/
theorem claim1_witness : ReachableD usersT2 ∧ (UniqueOk usersT2 ∧ IdxExact usersT2) :=
  ⟨reachable_usersT2, claim1_unique_index_invariant_of_reachable reachable_usersT2⟩

/-- C1's counterexample to the claim as stated: a table created with two
columns both named `a` (accepted by `Table.__init__`), the shadowed one
`UNIQUE`, loses the `a` index over a serialization round trip, after which
a duplicate insert succeeds and the uniqueness invariant is violated. -/
theorem claim1_counterexample :
    Table.make "t"
      [⟨"a", "INT", false, true, true⟩, ⟨"a", "INT", false, false, true⟩] =
      Except.ok tDup0 ∧
    tDup0.insertS [("a", some (Value.vint 1))] = (tDup1, none) ∧
    Table.from_dict (Table.to_dict tDup1) = Except.ok tDup2 ∧
    tDup2.insertS [("a", some (Value.vint 1))] = (tDup3, none) ∧
    ¬ UniqueOk tDup3 := by
  refine ⟨rfl, rfl, rfl, rfl, ?_⟩
  intro h
  have h1 := h "a" (by decide)
  rw [show tDup3.rows =
    [[("a", some (Value.vint 1))], [("a", some (Value.vint 1))]] from rfl] at h1
  rw [List.pairwise_cons] at h1
  have h2 := h1.1 [("a", some (Value.vint 1))] (by simp)
    (Value.vint 1) (Value.vint 1) rfl rfl
  exact absurd h2 (by decide)

/-- C2: the spec promises that `SHOW TABLES` returns one row per live
table, but the parser labels the query `"SHOW TABLES"` while the
dispatcher tests for `"SHOW_TABLES"`, so on every database the query falls
through to the unsupported-type failure and never reaches
`_execute_show_tables`. -/
theorem claim2_show_tables_never_succeeds (db : Database) :
    db.execute_query "SHOW TABLES" =
      (db, { success := false,
             error := some "Unsupported query type: SHOW TABLES" }) ∧
    parse "SHOW TABLES" = Except.ok { query_type := "SHOW TABLES" } :=
  ⟨rfl, rfl⟩

/-- C3: when persisting a freshly created table fails, the result is a
failure as claimed, but the new table — here the empty `users` table — is
still live in the in-memory table map, contradicting the claim's second
half. -/
theorem claim3_create_save_failure_table_left_live :
    (dbSaveFail.execute_query
        "CREATE TABLE users (id INT PRIMARY KEY, name TEXT)").2 =
      { success := false,
        error := some "Failed to save table 'users' to storage" } ∧
    alGet strEq (dbSaveFail.execute_query
        "CREATE TABLE users (id INT PRIMARY KEY, name TEXT)").1.tables
      "users" = some usersT0 :=
  ⟨rfl, rfl⟩

/-- C4 (amended): a WHERE clause whose only comparison uses `>`, `<` or
`!=` does not make parsing fail; SELECT, UPDATE and DELETE all parse
successfully with the condition silently dropped (`where_clause = none`). -/
theorem claim4_where_nonequality_dropped :
    ∀ op ∈ (["> 5", "< 5", "!= 5"] : List String),
      parse ("SELECT * FROM t WHERE id " ++ op) =
        Except.ok { query_type := "SELECT", table_name := some "t",
                    columns := some (ColsField.names ["*"]) } ∧
      parse ("UPDATE t SET name = 'x' WHERE id " ++ op) =
        Except.ok { query_type := "UPDATE", table_name := some "t",
                    set_values := some [("name", some (Value.vtext "x"))] } ∧
      parse ("DELETE FROM t WHERE id " ++ op) =
        Except.ok { query_type := "DELETE", table_name := some "t" } := by
  intro op hop
  rcases List.mem_cons.mp hop with rfl | hop2
  · exact ⟨rfl, rfl, rfl⟩
  · rcases List.mem_cons.mp hop2 with rfl | hop3
    · exact ⟨rfl, rfl, rfl⟩
    · rcases List.mem_cons.mp hop3 with rfl | h
      · exact ⟨rfl, rfl, rfl⟩
      · exact absurd h (List.not_mem_nil op)

/-- C4's witness at `>`. -/
theorem claim4_witness :
    ("> 5" ∈ (["> 5", "< 5", "!= 5"] : List String)) ∧
      (parse ("SELECT * FROM t WHERE id " ++ "> 5") =
        Except.ok { query_type := "SELECT", table_name := some "t",
                    columns := some (ColsField.names ["*"]) } ∧
      parse ("UPDATE t SET name = 'x' WHERE id " ++ "> 5") =
        Except.ok { query_type := "UPDATE", table_name := some "t",
                    set_values := some [("name", some (Value.vtext "x"))] } ∧
      parse ("DELETE FROM t WHERE id " ++ "> 5") =
        Except.ok { query_type := "DELETE", table_name := some "t" }) :=
  ⟨by decide, claim4_where_nonequality_dropped "> 5" (by decide)⟩

/-- C4's counterexample to the claim as stated: `WHERE id > 5` parses
successfully with an empty filter instead of failing, and an OR connective
is swallowed into the right-hand literal of the first condition. -/
theorem claim4_counterexample :
    parse "SELECT * FROM t WHERE id > 5" =
      Except.ok { query_type := "SELECT", table_name := some "t",
                  columns := some (ColsField.names ["*"]),
                  where_clause := none } ∧
    parse "SELECT * FROM t WHERE id = 1 OR name = 'x'" =
      Except.ok { query_type := "SELECT", table_name := some "t",
                  columns := some (ColsField.names ["*"]),
                  where_clause :=
                    some [("id", some (Value.vtext "1 OR name = 'x'"))] } :=
  ⟨rfl, rfl⟩

/-- C5: a failing insert returns the table unchanged — same object, so in
particular the same row count, rows and indexes — and the two failure
modes the claim names produce the constraint-naming messages: Scenario B's
duplicate primary key, and a NULL in the non-nullable `id`. -/
theorem claim5_insert_failure_unchanged :
    (∀ (t : Table) (row : Row) (t' : Table) (e : String),
        t.insertS row = (t', some e) →
        t' = t ∧ t'.get_row_count = t.get_row_count) ∧
    usersT2.insertS
        [("id", some (Value.vint 1)), ("name", some (Value.vtext "Cy"))] =
      (usersT2, some "Duplicate value '1' for primary key") ∧
    usersT0.insertS [("name", some (Value.vtext "Zed"))] =
      (usersT0, some "Column 'id' cannot be NULL") := by
  refine ⟨?_, rfl, rfl⟩
  intro t row t' e h
  unfold Table.insertS at h
  split at h
  · have h1 : t = t' := congrArg Prod.fst h
    subst h1
    exact ⟨rfl, rfl⟩
  · have h2 : (none : Option String) = some e := congrArg Prod.snd h
    cases h2

/-- C5's witness: Scenario B's duplicate insert leaves `users` unchanged. -/
theorem claim5_witness :
    usersT2.insertS
        [("id", some (Value.vint 1)), ("name", some (Value.vtext "Cy"))] =
      (usersT2, some "Duplicate value '1' for primary key") ∧
    (usersT2 = usersT2 ∧ usersT2.get_row_count = usersT2.get_row_count) :=
  ⟨rfl, claim5_insert_failure_unchanged.1 usersT2
    [("id", some (Value.vint 1)), ("name", some (Value.vtext "Cy"))]
    usersT2 "Duplicate value '1' for primary key" rfl⟩

/-- C6: whenever `from_dict (to_dict t)` succeeds, the result keeps the
column order, the rows, the primary-key name and (as a set) the unique
columns, its indexes are exact for its rows, and `to_dict` never
serializes the index state in the first place. -/
theorem claim6_roundtrip {t t' : Table}
    (h : Table.from_dict (Table.to_dict t) = Except.ok t') :
    t'.column_order = t.column_order ∧ t'.rows = t.rows ∧
    t'.primary_key = t.primary_key ∧
    (∀ x, x ∈ t'.unique_columns ↔ x ∈ t.unique_columns) ∧
    IdxExact t' ∧
    ∀ idx : Idx, Table.to_dict { t with indexes := idx } = Table.to_dict t := by
  unfold Table.from_dict at h
  simp only [bind, Except.bind] at h
  split at h
  · cases h
  · next cols hcols =>
    split at h
    · cases h
    · next t0 hmk =>
      have h2 : ({ t0 with rows := t.rows, column_order := t.column_order, primary_key := t.primary_key, unique_columns := pySetOfList t.unique_columns } : Table).rebuild_indexes = t' := Except.ok.inj h
      rw [← h2]
      refine ⟨rfl, rfl, rfl, ?_, rebuild_exact _, fun idx => rfl⟩
      intro x
      exact mem_pySetOfList

/-- C6's witness: the Scenario A table round-trips to itself. -/
theorem claim6_witness :
    Table.from_dict (Table.to_dict usersT2) = Except.ok usersT2 ∧
    (usersT2.column_order = usersT2.column_order ∧
     usersT2.rows = usersT2.rows ∧
     usersT2.primary_key = usersT2.primary_key ∧
     (∀ x, x ∈ usersT2.unique_columns ↔ x ∈ usersT2.unique_columns) ∧
     IdxExact usersT2 ∧
     ∀ idx : Idx, Table.to_dict { usersT2 with indexes := idx } =
       Table.to_dict usersT2) :=
  ⟨rfl, claim6_roundtrip rfl⟩

/-- C7: when both joined tables exist and their full selects succeed, the
join result is the cross product of their row lists filtered by the join
condition (an empty or absent condition keeps every pair), each kept pair
combined under `tableName.columnName` keys; and Scenario E's query yields
exactly its one combined row with the five qualified keys. -/
theorem claim7_join_cross_product (db : Database) (pq : ParsedQuery)
    (lt rt : Table) (lrows rrows : List Row)
    (hl : alGet strEq db.tables (pq.table_name.getD "") = some lt)
    (hr : alGet strEq db.tables (pq.join_table.getD "") = some rt)
    (hlr : lt.selectT none none = Except.ok lrows)
    (hrr : rt.selectT none none = Except.ok rrows)
    (hw : pq.where_clause = none)
    (hc : pq.columns = some (ColsField.names ["*"])) :
    (db.execute_join_select pq).2.success = true ∧
    (db.execute_join_select pq).2.data =
      some (((lrows.product rrows).filter
          (fun p => evalJoinCondition p.1 p.2 pq.join_condition)).map
        (fun p => combineJoinRow (pq.table_name.getD "") p.1
          (pq.join_table.getD "") p.2)) ∧
    (dbE.execute_query
        "SELECT * FROM users JOIN orders ON users.id = orders.userId").2.data =
      some [[("users.id", some (Value.vint 1)),
             ("users.name", some (Value.vtext "Ann")),
             ("orders.id", some (Value.vint 100)),
             ("orders.userId", some (Value.vint 1)),
             ("orders.total", some (Value.vreal 50))]] := by
  refine ⟨?_, ?_, rfl⟩
  · simp only [Database.execute_join_select, hl, hr, hlr, hrr, hw, hc]
  · simp only [Database.execute_join_select, hl, hr, hlr, hrr, hw, hc]
    rw [joinFold_eq]
    simp

/-- C7's witness at Scenario E's database and parsed query. -/
theorem claim7_witness :
    (dbE.execute_join_select pqE).2.success = true ∧
    (dbE.execute_join_select pqE).2.data =
      some ((([rowAnn].product [rowOrd]).filter
          (fun p => evalJoinCondition p.1 p.2 pqE.join_condition)).map
        (fun p => combineJoinRow (pqE.table_name.getD "") p.1
          (pqE.join_table.getD "") p.2)) ∧
    (dbE.execute_query
        "SELECT * FROM users JOIN orders ON users.id = orders.userId").2.data =
      some [[("users.id", some (Value.vint 1)),
             ("users.name", some (Value.vtext "Ann")),
             ("orders.id", some (Value.vint 100)),
             ("orders.userId", some (Value.vint 1)),
             ("orders.total", some (Value.vreal 50))]] :=
  claim7_join_cross_product dbE pqE usersE ordersE [rowAnn] [rowOrd]
    rfl rfl rfl rfl rfl rfl

/-- C8: the executors read neither `order_by` nor `limit`, so any SELECT
— joined or not — returns the same result with those fields cleared; the
parser does populate them, and a concrete ORDER BY/LIMIT query returns the
same data as its stripped form. -/
theorem claim8_order_by_limit_ignored :
    (∀ (db : Database) (pq : ParsedQuery),
      db.execute_select pq =
        db.execute_select { pq with order_by := none, limit := none }) ∧
    (∀ (db : Database) (pq : ParsedQuery),
      db.execute_join_select pq =
        db.execute_join_select { pq with order_by := none, limit := none }) ∧
    parse "SELECT name FROM users ORDER BY name LIMIT 2" =
      Except.ok { query_type := "SELECT", table_name := some "users",
                  columns := some (ColsField.names ["name"]),
                  order_by := some ["name"], limit := some 2 } ∧
    (dbA.execute_query "SELECT name FROM users ORDER BY name LIMIT 2").2.data =
      (dbA.execute_query "SELECT name FROM users").2.data :=
  ⟨fun db pq => rfl, fun db pq => rfl, rfl, rfl⟩

/-- C9: on a reachable table, if an update pass raises during revalidation
of some matching row `k`, nothing is rolled back: the row list keeps its
length, every row from `k` on keeps its old values, every earlier matching
row already carries its reassigned coerced values, every earlier
non-matching row is untouched, and the failing row's values are no longer
in any index. -/
theorem claim9_update_failure_no_rollback {t : Table} {sv : Filter}
    {w : Option Filter} {t' : Table} {e : String} (hre : ReachableD t)
    (hdecl : ∀ p ∈ w.getD [], alHasKey strEq t.columns p.1 = true)
    (h : t.updateS sv w = (t', Except.error e)) :
    ∃ k row, t.rows.get? k = some row ∧ t.matchesB row w = Except.ok true ∧
      t'.rows.length = t.rows.length ∧
      (∀ j, k ≤ j → t'.rows.get? j = t.rows.get? j) ∧
      (∀ j rj, j < k → t.rows.get? j = some rj →
        (t.matchesB rj w = Except.ok true →
          ∃ vr, coerceRow t (rowMerge rj sv) = Except.ok vr ∧
            t'.rows.get? j = some vr) ∧
        (t.matchesB rj w = Except.ok false → t'.rows.get? j = some rj)) ∧
      (∀ c v, rowGet row c = some v → ¬ InIdx t'.indexes c v k) := by
  obtain ⟨k, row, -, h2, h3, h4, h5, -, h7, h8⟩ :=
    updateGo_err_spec sv w t.rows.length t 0 0 t' e
      (wf_of_reachableD hre) hdecl h
  exact ⟨k, row, h2, h3, h4, h5,
    fun j rj hjk hrj => h7 j rj (Nat.zero_le j) hjk hrj, h8⟩

/-- C9's witness: `UPDATE users SET id = 1` on Scenario A fails on the
second row, leaving the first pass's state visible. -/
theorem claim9_witness :
    usersT2.updateS [("id", some (Value.vint 1))] none =
      (usersT2Upd, Except.error "Duplicate value '1' for primary key") ∧
    (∃ k row, usersT2.rows.get? k = some row ∧
      usersT2.matchesB row none = Except.ok true ∧
      usersT2Upd.rows.length = usersT2.rows.length ∧
      (∀ j, k ≤ j → usersT2Upd.rows.get? j = usersT2.rows.get? j) ∧
      (∀ j rj, j < k → usersT2.rows.get? j = some rj →
        (usersT2.matchesB rj none = Except.ok true →
          ∃ vr, coerceRow usersT2
              (rowMerge rj [("id", some (Value.vint 1))]) = Except.ok vr ∧
            usersT2Upd.rows.get? j = some vr) ∧
        (usersT2.matchesB rj none = Except.ok false →
          usersT2Upd.rows.get? j = some rj)) ∧
      (∀ c v, rowGet row c = some v → ¬ InIdx usersT2Upd.indexes c v k)) :=
  ⟨rfl, claim9_update_failure_no_rollback reachable_usersT2 (by simp) rfl⟩

/-- The single-row unfolding of the INSERT loop. -/
theorem insertRowsGo_single (t : Table) (r : InsertRow) :
    insertRowsGo t 0 [r] =
      (let row : Row := match r with
        | InsertRow.named row => row
        | InsertRow.valuesOnly vs =>
          (t.column_order.zip vs).foldl (fun acc p => alSet strEq acc p.1 p.2) []
       match t.insertS row with
       | (t1, none) => (t1, 1, none)
       | (t1, some e) => (t1, 0, some e)) := by
  show (match t.insertS _ with
    | (t', none) => insertRowsGo t' 1 []
    | (t', some e) => (t', 0, some e)) = _
  split
  · next t1 heq =>
    simp only [heq]
    rfl
  · next t1 e heq =>
    simp only [heq]

/-- C10: a column-less INSERT builds its row by zipping the declared
column order with the value tuple — surplus values dropped, missing
trailing columns absent — and the outcome is decided solely by row
validation, never by an arity check; concretely, both the surplus insert
`VALUES (3, 'Cy', 99)` and the short insert `VALUES (7)` succeed. -/
theorem claim10_values_only_insert_no_arity_error :
    (∀ (db : Database) (pq : ParsedQuery) (t : Table) (vs : List (Option Value)),
      alGet strEq db.tables (pq.table_name.getD "") = some t →
      pq.values = some [InsertRow.valuesOnly vs] →
      db.execute_insert pq =
        (let tn := pq.table_name.getD ""
         let row : Row := (t.column_order.zip vs).foldl
            (fun acc p => alSet strEq acc p.1 p.2) []
         let ins := t.insertS row
         let db1 : Database :=
           { db with tables := alSet strEq db.tables tn ins.1 }
         match ins.2 with
         | some e => (db1, { success := false, error := some s!"Insert failed: {e}" })
         | none => (db1, { success := true, rows_affected := 1, message := some s!"Inserted 1 row(s) into '{tn}'" }))) ∧
    (dbA.execute_query "INSERT INTO users VALUES (3, 'Cy', 99)").2.success = true ∧
    alGet strEq (dbA.execute_query
        "INSERT INTO users VALUES (3, 'Cy', 99)").1.tables "users" =
      some usersT3Cy ∧
    (dbA.execute_query "INSERT INTO users VALUES (7)").2.success = true ∧
    alGet strEq (dbA.execute_query
        "INSERT INTO users VALUES (7)").1.tables "users" =
      some usersT3Seven := by
  refine ⟨?_, rfl, rfl, rfl, rfl⟩
  intro db pq t vs ht hv
  simp only [Database.execute_insert, ht, hv, Option.getD_some]
  rw [insertRowsGo_single]
  simp only []
  cases t.insertS ((t.column_order.zip vs).foldl
      (fun acc p => alSet strEq acc p.1 p.2) []) with
  | mk t1 res =>
    cases res with
    | none => simp only []; rfl
    | some e => rfl

/-- C10's witness: the surplus insert on Scenario A's database. -/
theorem claim10_witness :
    alGet strEq dbA.tables (pqIns3.table_name.getD "") = some usersT2 ∧
    pqIns3.values = some [InsertRow.valuesOnly
      [some (Value.vint 3), some (Value.vtext "Cy"), some (Value.vint 99)]] ∧
    dbA.execute_insert pqIns3 =
      (let tn := pqIns3.table_name.getD ""
       let row : Row := (usersT2.column_order.zip
          [some (Value.vint 3), some (Value.vtext "Cy"), some (Value.vint 99)]).foldl
          (fun acc p => alSet strEq acc p.1 p.2) []
       let ins := usersT2.insertS row
       let db1 : Database :=
         { dbA with tables := alSet strEq dbA.tables tn ins.1 }
       match ins.2 with
       | some e => (db1, { success := false, error := some s!"Insert failed: {e}" })
       | none => (db1, { success := true, rows_affected := 1, message := some s!"Inserted 1 row(s) into '{tn}'" })) :=
  ⟨rfl, rfl, claim10_values_only_insert_no_arity_error.1 dbA pqIns3 usersT2
    [some (Value.vint 3), some (Value.vtext "Cy"), some (Value.vint 99)] rfl rfl⟩

end MiniDB
